import Mathlib

/-!
Verification development for `lua-string-format` (src/format.c), a printf-style
string formatter for Lua with a UTF-8-aware `%q` quoting conversion and an
errno conversion `%m`.

Strings are modelled as lists of byte values (`Bytes := List Nat`, each element
intended `< 256`).  C reads through a NUL-terminated buffer are modelled by
`bget`, which yields the byte at an index and `0` at the index of the
terminator; reading *past* the terminator is out of bounds in C and is made
explicit in the parser model (`FmtOut.ub`).
-/

/-- Byte strings: lists of byte values. -/
abbrev Bytes := List Nat

/-- Read a byte at index `i`; positions at or past the end read as `0`
(the C NUL terminator that follows the `len` bytes of a Lua string). -/
def bget (s : Bytes) (i : Nat) : Nat := s.getD i 0

/-- Read the byte at the cursor (`*cur` in C): the head, or the terminator. -/
def read0 (s : Bytes) : Nat := s.headD 0

/-- Left-pad a list to length `n` with element `c`. -/
def leftPad (c : Nat) (n : Nat) (l : List Nat) : List Nat :=
  List.replicate (n - l.length) c ++ l

/-- Fuelled digit emitter underlying decimal/octal/hex rendering
(models the digit production of the platform `printf` family). -/
def natBaseAux (base : Nat) (upper : Bool) : Nat → Nat → Bytes
  | 0, _ => []
  | f + 1, n =>
    if n < base then
      [if n < 10 then n + 48 else n - 10 + (if upper then 65 else 97)]
    else
      natBaseAux base upper f (n / base) ++
        [if n % base < 10 then n % base + 48
         else n % base - 10 + (if upper then 65 else 97)]

/-- Decimal digits of a natural number, most significant first
(the output of C `snprintf` with `%d` on a non-negative value). -/
def natDec (n : Nat) : Bytes := natBaseAux 10 false (n + 1) n

/-- Decimal rendering of an integer, with a leading `-` (byte 45) when
negative (the output of C `snprintf` with `%d`). -/
def intDec (n : Int) : Bytes :=
  if n < 0 then 45 :: natDec n.natAbs else natDec n.toNat

/-- Numeric value of a list of ASCII decimal digits. -/
def decVal (d : Bytes) : Nat := d.foldl (fun a c => a * 10 + (c - 48)) 0

/-- C cast of a value to 32-bit `int` (two's complement wrap); models the
`(int)lua_tonumber(...)` conversion in `uint2str`. -/
def toCInt (n : Int) : Int := (n + 2 ^ 31) % 2 ^ 32 - 2 ^ 31

/-- `is_utf8firstb` (src/format.c:44): whether `b` is a valid UTF-8
single/lead byte: `00-7F`, `C2-DF`, `E0-EF`, `F0-F4`. -/
def is_utf8firstb (b : Nat) : Bool :=
  if b ≤ 0x7F then true
  else if 0xC2 ≤ b ∧ b ≤ 0xDF then true
  else if 0xE0 ≤ b ∧ b ≤ 0xEF then true
  else if 0xF0 ≤ b ∧ b ≤ 0xF4 then true
  else false

/-- The `is_utf8tail` macro (src/format.c:78): `(c & 0xC0) == 0x80`. -/
def is_utf8tail (c : Nat) : Bool := (c &&& 0xC0) == 0x80

/-- `utf8len` (src/format.c:64): length of the UTF-8 sequence at the start of
`s` (1-4), or a negative resynchronization skip for a malformed sequence,
following The Unicode Standard Table 3-7.  `s` is the NUL-terminated suffix of
the scanned string; `bget` models the terminator reads. -/
def utf8len (s : Bytes) : Int :=
  if bget s 0 ≤ 0x7F then 1
  else if bget s 0 ≤ 0xC1 then -1
  else if bget s 0 ≤ 0xDF then
    if is_utf8tail (bget s 1) then 2
    else if is_utf8firstb (bget s 1) then -1
    else -2
  else if bget s 0 = 0xE0 then
    if 0xA0 ≤ bget s 1 ∧ bget s 1 ≤ 0xBF ∧ is_utf8tail (bget s 2) then 3
    else if is_utf8firstb (bget s 1) then -1
    else if is_utf8firstb (bget s 2) then -2
    else -3
  else if bget s 0 ≤ 0xEC then
    if is_utf8tail (bget s 1) ∧ is_utf8tail (bget s 2) then 3
    else if is_utf8firstb (bget s 1) then -1
    else if is_utf8firstb (bget s 2) then -2
    else -3
  else if bget s 0 = 0xED then
    if 0x80 ≤ bget s 1 ∧ bget s 1 ≤ 0x9F ∧ is_utf8tail (bget s 2) then 3
    else if is_utf8firstb (bget s 1) then -1
    else if is_utf8firstb (bget s 2) then -2
    else -3
  else if bget s 0 ≤ 0xEF then
    if is_utf8tail (bget s 1) ∧ is_utf8tail (bget s 2) then 3
    else if is_utf8firstb (bget s 1) then -1
    else if is_utf8firstb (bget s 2) then -2
    else -3
  else if bget s 0 = 0xF0 then
    if 0x90 ≤ bget s 1 ∧ bget s 1 ≤ 0xBF ∧ is_utf8tail (bget s 2) ∧
        is_utf8tail (bget s 3) then 4
    else if is_utf8firstb (bget s 1) then -1
    else if is_utf8firstb (bget s 2) then -2
    else if is_utf8firstb (bget s 3) then -3
    else -4
  else if bget s 0 ≤ 0xF3 then
    if is_utf8tail (bget s 1) ∧ is_utf8tail (bget s 2) ∧
        is_utf8tail (bget s 3) then 4
    else if is_utf8firstb (bget s 1) then -1
    else if is_utf8firstb (bget s 2) then -2
    else if is_utf8firstb (bget s 3) then -3
    else -4
  else if bget s 0 = 0xF4 then
    if 0x80 ≤ bget s 1 ∧ bget s 1 ≤ 0x8F ∧ is_utf8tail (bget s 2) ∧
        is_utf8tail (bget s 3) then 4
    else if is_utf8firstb (bget s 1) then -1
    else if is_utf8firstb (bget s 2) then -2
    else if is_utf8firstb (bget s 3) then -3
    else -4
  else -1

/-- Lua values as the formatter sees them (the host value model of the spec):
strings are byte lists, numbers are modelled as integers (the claims under
verification involve only integral numbers), plus booleans, nil, and one
opaque constructor for all other types. -/
inductive LValue where
  | vstr (s : Bytes)
  | vnum (n : Int)
  | vbool (b : Bool)
  | vnil
  | vother
deriving DecidableEq

/-- `tolstring` (src/format.c:192): display coercion of a value.  The
`__tostring` metamethod hook and the pointer identity of opaque values are
host capabilities; the model renders opaque values with a fixed
typename-and-identity token (the bytes of a `name: 0x0` rendering). -/
def tolstring : LValue → Bytes
  | .vstr s => s
  | .vnum n => intDec n
  | .vnil => [110, 105, 108]
  | .vbool true => [116, 114, 117, 101]
  | .vbool false => [102, 97, 108, 115, 101]
  | .vother => [117, 115, 101, 114, 100, 97, 116, 97, 58, 32, 48, 120, 48]

/-- C-locale `iscntrl` on a byte: `0x00-0x1F` and `0x7F`. -/
def iscntrlB (b : Nat) : Bool := if b < 32 ∨ b = 127 then true else false

/-- C-locale `isdigit` on a byte: ASCII `0`-`9`. -/
def isdigitB (b : Nat) : Bool := if 48 ≤ b ∧ b ≤ 57 then true else false

/-- The UTF-8 replacement character U+FFFD, `"\xEF\xBF\xBD"`. -/
def replacementChar : Bytes := [0xEF, 0xBF, 0xBD]

/-- Single-byte escaping of `push_quoted_string` (src/format.c:263-305).
`b` is the current byte, `next` the byte after it (`*(s + 1)`, possibly the
terminator).  The decimal branch mirrors `snprintf` with `"\\%03d"` when the
next byte is a digit and `"\\%d"` otherwise. -/
def escByte (b next : Nat) : Bytes :=
  if b = 34 ∨ b = 92 then [92, b]
  else if ¬ iscntrlB b then [b]
  else if b = 0 then [92, 48]
  else if b = 7 then [92, 97]
  else if b = 8 then [92, 98]
  else if b = 9 then [92, 116]
  else if b = 10 then [92, 110]
  else if b = 11 then [92, 118]
  else if b = 12 then [92, 102]
  else if b = 13 then [92, 114]
  else if isdigitB next then 92 :: leftPad 48 3 (natDec b)
  else 92 :: natDec b

/-- The byte-scanning loop of `push_quoted_string` (src/format.c:244-307),
with explicit fuel (one unit per iteration; the wrapper supplies enough
because every iteration strictly consumes input). -/
def quoteLoopF : Nat → Bytes → Bytes
  | 0, _ => []
  | f + 1, s =>
    if s.isEmpty then []
    else
      if utf8len s < 0 then
        replacementChar ++ quoteLoopF f (s.drop (utf8len s).natAbs)
      else if 1 < utf8len s then
        s.take (utf8len s).natAbs ++ quoteLoopF f (s.drop (utf8len s).natAbs)
      else escByte (read0 s) (bget s 1) ++ quoteLoopF f (s.drop 1)

/-- The `while (len > 0)` loop of `push_quoted_string` over the bytes of the
coerced string. -/
def quoteLoop (s : Bytes) : Bytes := quoteLoopF (s.length + 1) s

/-- `push_quoted_string` (src/format.c:235): coerce the value to display
bytes, escape them, and wrap the result in double quotes. -/
def pushQuotedString (v : LValue) : Bytes :=
  34 :: quoteLoop (tolstring v) ++ [34]

/-- Errors raised through `luaL_error` / `luaL_argerror` during formatting. -/
inductive FmtErr where
  | placeholderTooLong (ph : Bytes)
  | notEnoughArguments (ph : Bytes)
  | unsupportedType (c : Nat) (fmt : Bytes)
  | qModifiers
  | argTypeError (idx : Nat)
  | argLenError (idx : Nat)
  | invalidTypeChar
deriving DecidableEq

/-- Outcome of `format_arguments`: produced fragments and the index of the
last used argument, an error, or an out-of-bounds template read (`ub`): the C
scanner's `strchr`-based loops match the NUL terminator, so some templates
drive the cursor past the end of the string buffer. -/
inductive FmtOut where
  | ok (frags : List Bytes) (lastarg : Nat)
  | err (e : FmtErr)
  | ub
deriving DecidableEq

/-- State after a width/precision sub-loop: remaining template bytes, the
pending not-yet-copied specifier bytes (`head..cur`), the placeholder buffer
contents, the remaining buffer capacity `blen`, and `nextarg`. -/
inductive LoopRes where
  | ok (rest pend ph : Bytes) (blen na : Nat)
  | err (e : FmtErr)
  | ub
deriving DecidableEq

/-- Membership in C `strchr("#I0- +'", c)`: the seven flag characters, or the
set string's own NUL terminator (C `strchr` considers the terminator part of
the string, so `c = 0` matches). -/
def flagSet (b : Nat) : Bool :=
  if b = 35 ∨ b = 73 ∨ b = 48 ∨ b = 45 ∨ b = 32 ∨ b = 43 ∨ b = 39 ∨ b = 0
  then true else false

/-- Membership in C `strchr("1234567890*", c)` (terminator included). -/
def widthSet (b : Nat) : Bool :=
  if (48 ≤ b ∧ b ≤ 57) ∨ b = 42 ∨ b = 0 then true else false

/-- Membership in C `strchr("hljztL", c)` (terminator included). -/
def lmSet (b : Nat) : Bool :=
  if b = 104 ∨ b = 108 ∨ b = 106 ∨ b = 122 ∨ b = 116 ∨ b = 76 ∨ b = 0
  then true else false

/-- Membership in C `strchr("diouxXeEfFgGaAcspqm", c)` (terminator
included). -/
def typeOk (c : Nat) : Bool :=
  if c = 100 ∨ c = 105 ∨ c = 111 ∨ c = 117 ∨ c = 120 ∨ c = 88 ∨ c = 101 ∨
     c = 69 ∨ c = 102 ∨ c = 70 ∨ c = 103 ∨ c = 71 ∨ c = 97 ∨ c = 65 ∨
     c = 99 ∨ c = 115 ∨ c = 112 ∨ c = 113 ∨ c = 109 ∨ c = 0
  then true else false

/-- `COPY2PLACEHOLDER` (src/format.c:460): append `src` to the placeholder
buffer `ph`, failing when `src.length >= blen` (buffer bound 255). -/
def copyPH (ph src : Bytes) (blen : Nat) : Option (Bytes × Nat) :=
  if blen ≤ src.length then none else some (ph ++ src, blen - src.length)

/-- `uint2str` (src/format.c:410): fetch the dynamic width/precision argument
at 1-based stack index `idx`; it must exist (`idx ≤ narg`) and be a number
(`luaL_checktype(L, idx, LUA_TNUMBER)`); its value is rendered as decimal
digits through `snprintf "%d"` after an `int` cast. -/
def uint2str (stack : List LValue) (narg : Nat) (fmtStr : Bytes) (idx : Nat) :
    Except FmtErr Bytes :=
  if narg < idx then .error (.notEnoughArguments fmtStr)
  else
    match stack.getD (idx - 1) LValue.vnil with
    | .vnum n => .ok (intDec (toCInt n))
    | _ => .error (.argTypeError idx)

/-- The flags loop (src/format.c:491): advance while `*cur` is in the flag
set.  Since the set matches the terminator, reaching the end of the template
advances past it: `none` marks that out-of-bounds state. -/
def flagsLoop : Bytes → Bytes → Option (Bytes × Bytes)
  | [], pend => if flagSet 0 then none else some ([], pend)
  | b :: r, pend =>
    if flagSet b then flagsLoop r (pend ++ [b]) else some (b :: r, pend)

/-- The width loop (src/format.c:501-519), also reused verbatim by the
precision field (src/format.c:525-542): advance over digits, resolving each
`*` by copying the pending bytes into the placeholder, consuming the next
argument through `uint2str`, and copying its digits in place of the `*`. -/
def widthLoop (stack : List LValue) (narg : Nat) (fmtStr : Bytes) :
    Bytes → Bytes → Bytes → Nat → Nat → LoopRes
  | [], pend, ph, blen, na =>
    if widthSet 0 then .ub else .ok [] pend ph blen na
  | b :: r, pend, ph, blen, na =>
    if widthSet b then
      if b = 42 then
        match copyPH ph pend blen with
        | none => .err (.placeholderTooLong ph)
        | some (ph1, blen1) =>
          match uint2str stack narg fmtStr (na + 1) with
          | .error e => .err e
          | .ok w =>
            match copyPH ph1 w blen1 with
            | none => .err (.placeholderTooLong ph1)
            | some (ph2, blen2) =>
              widthLoop stack narg fmtStr r [] ph2 blen2 (na + 1)
      else widthLoop stack narg fmtStr r (pend ++ [b]) ph blen na
    else .ok (b :: r) pend ph blen na

/-- The length-modifier step (src/format.c:548): a single `if (strchr(...))`
advance; `none` is the out-of-bounds state (terminator matched at the end of
the template). -/
def lmStep : Bytes → Bytes → Option (Bytes × Bytes)
  | [], pend => if lmSet 0 then none else some ([], pend)
  | b :: r, pend => if lmSet b then some (r, pend ++ [b]) else some (b :: r, pend)

/-- Parsed shape of a reconstructed specifier, as consumed by the platform
`printf` family (the external collaborator `asprintf` delegates to). -/
structure PFmt where
  minus : Bool := false
  plus : Bool := false
  space : Bool := false
  zero : Bool := false
  hash : Bool := false
  width : Nat := 0
  hasPrec : Bool := false
  prec : Nat := 0
deriving DecidableEq, Inhabited

/-- Flag parsing of the platform `printf` (glibc also accepts `'` and `I`,
which have no effect in the model). -/
def parseFlags : Bytes → PFmt → Bytes × PFmt
  | [], f => ([], f)
  | b :: r, f =>
    if b = 45 then parseFlags r { f with minus := true }
    else if b = 48 then parseFlags r { f with zero := true }
    else if b = 43 then parseFlags r { f with plus := true }
    else if b = 32 then parseFlags r { f with space := true }
    else if b = 35 then parseFlags r { f with hash := true }
    else if b = 39 ∨ b = 73 then parseFlags r f
    else (b :: r, f)

/-- Decimal number parsing of the platform `printf`. -/
def parseNum : Bytes → Nat → Bytes × Nat
  | [], acc => ([], acc)
  | b :: r, acc =>
    if 48 ≤ b ∧ b ≤ 57 then parseNum r (acc * 10 + (b - 48))
    else (b :: r, acc)

/-- Parse a reconstructed specifier (`%`, flags, width, optional precision;
the length modifier and type character are handled by the dispatcher). -/
def parsePFmt (ph : Bytes) : PFmt :=
  let p1 := parseFlags (ph.drop 1) {}
  let p2 := parseNum p1.1 0
  let f := { p1.2 with width := p2.2 }
  if read0 p2.1 = 46 then
    let p3 := parseNum (p2.1.drop 1) 0
    { f with hasPrec := true, prec := p3.2 }
  else f

def spaces (n : Nat) : Bytes := List.replicate n 32

/-- Platform `printf` rendering of a signed decimal conversion (`%d`/`%i`)
per the C standard: precision is the minimum digit count (value 0 with
precision 0 prints nothing), `-` left-justifies, `0` pads with zeros unless a
precision is given or `-` is present, `+`/space prescribe a sign slot. -/
def renderInt (f : PFmt) (v : Int) : Bytes :=
  let ds := if f.hasPrec ∧ f.prec = 0 ∧ v = 0 then []
            else if f.hasPrec then leftPad 48 f.prec (natDec v.natAbs)
            else natDec v.natAbs
  let sign : Bytes :=
    if v < 0 then [45] else if f.plus then [43]
    else if f.space then [32] else []
  let body := sign ++ ds
  if f.width ≤ body.length then body
  else if f.minus then body ++ spaces (f.width - body.length)
  else if f.zero ∧ ¬ f.hasPrec then
    sign ++ leftPad 48 (f.width - sign.length) ds
  else spaces (f.width - body.length) ++ body

/-- Platform `printf` rendering of unsigned conversions (`%o %u %x %X`).
The value reaches `asprintf` as a `lua_Integer`; the model renders its 64-bit
two's-complement bit pattern (the varargs `int`/`long` width mismatch of the
C call is not modelled). -/
def renderUInt (base : Nat) (upper : Bool) (f : PFmt) (v : Int) : Bytes :=
  let u := (v % (2 ^ 64 : Int)).toNat
  let ds0 := natBaseAux base upper (u + 1) u
  let ds := if f.hasPrec ∧ f.prec = 0 ∧ u = 0 then []
            else if f.hasPrec then leftPad 48 f.prec ds0
            else ds0
  let pfx : Bytes :=
    if f.hash ∧ base = 16 ∧ u ≠ 0 then [48, if upper then 88 else 120]
    else if f.hash ∧ base = 8 ∧ read0 ds ≠ 48 then [48]
    else []
  let body := pfx ++ ds
  if f.width ≤ body.length then body
  else if f.minus then body ++ spaces (f.width - body.length)
  else if f.zero ∧ ¬ f.hasPrec then
    pfx ++ leftPad 48 (f.width - pfx.length) ds
  else spaces (f.width - body.length) ++ body

/-- Platform `printf` rendering of `%c`: the `int` argument is converted to
`unsigned char` and padded to the field width. -/
def renderChar (f : PFmt) (v : Int) : Bytes :=
  let body : Bytes := [(v % 256).toNat]
  if f.width ≤ 1 then body
  else if f.minus then body ++ spaces (f.width - 1)
  else spaces (f.width - 1) ++ body

/-- Platform `printf` rendering of `%s`: precision truncates, width pads. -/
def renderStr (f : PFmt) (s : Bytes) : Bytes :=
  let body := if f.hasPrec then s.take f.prec else s
  if f.width ≤ body.length then body
  else if f.minus then body ++ spaces (f.width - body.length)
  else spaces (f.width - body.length) ++ body

/-- Platform `printf` rendering of the floating conversions
(`%e %E %f %F %g %G %a %A`).  The value model restricts Lua numbers to
integers, so the model renders fixed-notation text with the requested
precision (default 6) of zero fraction digits; the full platform float
formatter is an external collaborator and is not reproduced. -/
def renderFloat (f : PFmt) (v : Int) : Bytes :=
  let p := if f.hasPrec then f.prec else 6
  let ds := natDec v.natAbs ++ (if p = 0 then [] else 46 :: List.replicate p 48)
  let sign : Bytes :=
    if v < 0 then [45] else if f.plus then [43]
    else if f.space then [32] else []
  let body := sign ++ ds
  if f.width ≤ body.length then body
  else if f.minus then body ++ spaces (f.width - body.length)
  else if f.zero then sign ++ leftPad 48 (f.width - sign.length) ds
  else spaces (f.width - body.length) ++ body

/-- The pointer token rendered for `%p` (`lua_topointer` identity is a host
capability; the model uses a fixed address-like token). -/
def ptrToken : Bytes := [48, 120, 48]

/-- The platform `asprintf` on one reconstructed specifier `ph` with type
character `c` and an integer or string payload. -/
def cPrintf (ph : Bytes) (c : Nat) : Int ⊕ Bytes → Bytes
  | .inl v =>
    let f := parsePFmt ph
    if c = 100 ∨ c = 105 then renderInt f v
    else if c = 111 then renderUInt 8 false f v
    else if c = 117 then renderUInt 10 false f v
    else if c = 120 then renderUInt 16 false f v
    else if c = 88 then renderUInt 16 true f v
    else if c = 99 then renderChar f v
    else renderFloat f v
  | .inr s => renderStr (parsePFmt ph) s

/-- `push_format_string` (src/format.c:315): convert one argument according
to the specifier text `ph` and its type character `c`.  `idx` is the 1-based
stack index of the argument (used in error messages).  Checked numeric
coercions are the host capability of the spec: numbers succeed, any other
value fails (booleans are special-cased for the integer conversions by the
source itself). -/
def pushFormatString (ph : Bytes) (c : Nat) (v : LValue) (idx : Nat) :
    Except FmtErr Bytes :=
  if c = 100 ∨ c = 105 ∨ c = 111 ∨ c = 117 ∨ c = 120 ∨ c = 88 then
    match v with
    | .vbool b => .ok (cPrintf ph c (.inl (if b then 1 else 0)))
    | .vnum n => .ok (cPrintf ph c (.inl n))
    | _ => .error (.argTypeError idx)
  else if c = 99 then
    match v with
    | .vstr s =>
      if 1 < s.length then .error (.argLenError idx)
      else .ok (cPrintf ph c (.inl (read0 s)))
    | .vnum n => .ok (cPrintf ph c (.inl n))
    | _ => .error (.argTypeError idx)
  else if c = 101 ∨ c = 69 ∨ c = 102 ∨ c = 70 ∨ c = 103 ∨ c = 71 ∨
          c = 97 ∨ c = 65 then
    match v with
    | .vnum n => .ok (cPrintf ph c (.inl n))
    | _ => .error (.argTypeError idx)
  else if c = 115 then .ok (cPrintf ph c (.inr (tolstring v)))
  else if c = 112 then .ok (cPrintf ph c (.inr ptrToken))
  else if c = 113 then
    if ph = [37, 113] then .ok (pushQuotedString v) else .error .qModifiers
  else .error .invalidTypeChar

/-- The type-character dispatch at the end of a parsed specifier
(src/format.c:564-577): `m` pushes `strerror(errno)` (the model parameter
`em`) and consumes nothing; every other type consumes the next argument,
failing when none remains. -/
def emitType (em : Bytes) (stack : List LValue) (narg : Nat) (ph : Bytes)
    (c : Nat) (na : Nat) : Except FmtErr (Bytes × Nat) :=
  if c = 109 then .ok (em, na)
  else if narg < na + 1 then .error (.notEnoughArguments ph)
  else
    match pushFormatString ph c (stack.getD na LValue.vnil) (na + 1) with
    | .error e => .error e
    | .ok frag => .ok (frag, na + 1)

/-- The main template scan of `format_arguments` (src/format.c:454-580),
fuelled by one unit per loop iteration (each iteration strictly consumes
template bytes, so `length + 1` units always suffice).  `rest` is the
template from the cursor on, `run` the pending literal run (`head..cur`),
`frags` the strings pushed so far, `na` the `nextarg` counter. -/
def scan (em : Bytes) (stack : List LValue) (narg : Nat) :
    Nat → Bytes → Bytes → List Bytes → Nat → FmtOut
  | 0, _, _, _, _ => .ub
  | fuel + 1, rest, run, frags, na =>
    match rest with
    | [] => .ok (frags ++ if run.isEmpty then [] else [run]) na
    | b :: r1 =>
      if b = 0 then .ok (frags ++ if run.isEmpty then [] else [run]) na
      else if b = 37 then
        if read0 r1 = 37 then
          scan em stack narg fuel r1.tail [] (frags ++ [run ++ [37]]) na
        else
          let frags1 := if run.isEmpty then frags else frags ++ [run]
          let fmtStr := 37 :: r1.takeWhile (fun x => !(x == 0))
          match flagsLoop r1 [37] with
          | none => .ub
          | some (rest2, pend2) =>
            match widthLoop stack narg fmtStr rest2 pend2 [] 255 na with
            | .ub => .ub
            | .err e => .err e
            | .ok rest3 pend3 ph3 blen3 na3 =>
              match (if read0 rest3 = 46 then
                       match rest3 with
                       | [] => LoopRes.ub
                       | _ :: r =>
                         widthLoop stack narg fmtStr r (pend3 ++ [46]) ph3
                           blen3 na3
                     else LoopRes.ok rest3 pend3 ph3 blen3 na3) with
              | .ub => .ub
              | .err e => .err e
              | .ok rest4 pend4 ph4 blen4 na4 =>
                match lmStep rest4 pend4 with
                | none => .ub
                | some (rest5, pend5) =>
                  if typeOk (read0 rest5) then
                    match copyPH ph4 (pend5 ++ [read0 rest5]) blen4 with
                    | none => .err (.placeholderTooLong ph4)
                    | some (ph5, _) =>
                      match emitType em stack narg ph5 (read0 rest5) na4 with
                      | .error e => .err e
                      | .ok (frag, na5) =>
                        match rest5 with
                        | [] => .ub
                        | _ :: r6 =>
                          scan em stack narg fuel r6 [] (frags1 ++ [frag]) na5
                  else .err (.unsupportedType (read0 rest5) fmtStr)
      else scan em stack narg fuel r1 (run ++ [b]) frags na

/-- `format_arguments` (src/format.c:439): scan the template at stack index 1
and return the produced fragments together with the index of the last used
argument; a non-string template is ignored and `0` is returned. -/
def formatArguments (em : Bytes) (stack : List LValue) : FmtOut :=
  match stack.headD LValue.vnil with
  | .vstr fmt => scan em stack stack.length (fmt.length + 1) fmt [] [] 1
  | _ => .ok [] 0

/-- Result of the Lua-facing call `format_lua`: one string, or a string plus
the sequence of leftover arguments and their count, or a raised error /
out-of-bounds template read. -/
inductive CallResult where
  | one (s : Bytes)
  | three (s : Bytes) (leftover : List LValue) (count : Nat)
  | fail (e : FmtErr)
  | ub
deriving DecidableEq

/-- `format_lua` (src/format.c:593): run `format_arguments` over the stack
`template :: args`, concatenate the produced fragments, and package the
leftover arguments (stack positions `lastarg+1 .. narg`, in order) together
with their count when any remain. -/
def formatLua (em : Bytes) (tmpl : LValue) (args : List LValue) : CallResult :=
  let stack := tmpl :: args
  match formatArguments em stack with
  | .err e => .fail e
  | .ub => .ub
  | .ok frags lastarg =>
    let narg := stack.length
    let res := frags.foldl (· ++ ·) []
    if 0 < narg - lastarg then
      .three res (stack.drop lastarg) (narg - lastarg)
    else .one res

/-- Whether a value is string-typed (`lua_type(L, i) == LUA_TSTRING`). -/
def isStr : LValue → Bool
  | .vstr _ => true
  | _ => false

/-- Modelled from the spec (§4.1): `classify_lead(byte)` — true iff the byte
is a valid single/lead byte, ranges `00-7F`, `C2-DF`, `E0-EF`, `F0-F4`. -/
def classify_lead (b : Nat) : Bool :=
  if b ≤ 0x7F then true
  else if 0xC2 ≤ b ∧ b ≤ 0xDF then true
  else if 0xE0 ≤ b ∧ b ≤ 0xEF then true
  else if 0xF0 ≤ b ∧ b ≤ 0xF4 then true
  else false

/-- Modelled from the spec (§4.1, glossary): a continuation byte, range
`80-BF`. -/
def contS (b : Nat) : Bool := if 0x80 ≤ b ∧ b ≤ 0xBF then true else false

/-- Modelled from the spec (§4.1): `decode_at(bytes, cursor)` — the decoder
contract written from the spec's rule list (positive well-formed length 1-4
per the Unicode table rows, negative resynchronization skip chosen by which
following byte looks like a new lead byte). -/
def decode_at (s : Bytes) : Int :=
  if bget s 0 ≤ 0x7F then 1
  else if bget s 0 ≤ 0xC1 then -1
  else if bget s 0 ≤ 0xDF then
    if contS (bget s 1) then 2
    else if classify_lead (bget s 1) then -1
    else -2
  else if bget s 0 = 0xE0 then
    if 0xA0 ≤ bget s 1 ∧ bget s 1 ≤ 0xBF ∧ contS (bget s 2) then 3
    else if classify_lead (bget s 1) then -1
    else if classify_lead (bget s 2) then -2
    else -3
  else if bget s 0 ≤ 0xEC then
    if contS (bget s 1) ∧ contS (bget s 2) then 3
    else if classify_lead (bget s 1) then -1
    else if classify_lead (bget s 2) then -2
    else -3
  else if bget s 0 = 0xED then
    if 0x80 ≤ bget s 1 ∧ bget s 1 ≤ 0x9F ∧ contS (bget s 2) then 3
    else if classify_lead (bget s 1) then -1
    else if classify_lead (bget s 2) then -2
    else -3
  else if bget s 0 ≤ 0xEF then
    if contS (bget s 1) ∧ contS (bget s 2) then 3
    else if classify_lead (bget s 1) then -1
    else if classify_lead (bget s 2) then -2
    else -3
  else if bget s 0 = 0xF0 then
    if 0x90 ≤ bget s 1 ∧ bget s 1 ≤ 0xBF ∧ contS (bget s 2) ∧
        contS (bget s 3) then 4
    else if classify_lead (bget s 1) then -1
    else if classify_lead (bget s 2) then -2
    else if classify_lead (bget s 3) then -3
    else -4
  else if bget s 0 ≤ 0xF3 then
    if contS (bget s 1) ∧ contS (bget s 2) ∧ contS (bget s 3) then 4
    else if classify_lead (bget s 1) then -1
    else if classify_lead (bget s 2) then -2
    else if classify_lead (bget s 3) then -3
    else -4
  else if bget s 0 = 0xF4 then
    if 0x80 ≤ bget s 1 ∧ bget s 1 ≤ 0x8F ∧ contS (bget s 2) ∧
        contS (bget s 3) then 4
    else if classify_lead (bget s 1) then -1
    else if classify_lead (bget s 2) then -2
    else if classify_lead (bget s 3) then -3
    else -4
  else -1

/-- Well-formedness of a whole byte string under the decoder: it decomposes
into sequences the decoder accepts (fuelled; the wrapper supplies enough). -/
def utf8wfF : Nat → Bytes → Bool
  | 0, _ => false
  | f + 1, s =>
    if s.isEmpty then true
    else if 0 < utf8len s then utf8wfF f (s.drop (utf8len s).natAbs)
    else false

/-- A byte string is well-formed UTF-8 when the decoder accepts every
sequence in it. -/
def utf8wf (s : Bytes) : Bool := utf8wfF (s.length + 1) s

/-- No NUL byte is immediately followed by an ASCII decimal digit. -/
def noNulDigit : Bytes → Bool
  | 0 :: c :: r => !isdigitB c && noNulDigit (c :: r)
  | _ :: r => noNulDigit r
  | [] => true

/-- Named escape characters of the host's string-literal grammar. -/
def escMap (c : Nat) : Option Nat :=
  if c = 97 then some 7
  else if c = 98 then some 8
  else if c = 102 then some 12
  else if c = 110 then some 10
  else if c = 114 then some 13
  else if c = 116 then some 9
  else if c = 118 then some 11
  else if c = 34 then some 34
  else if c = 92 then some 92
  else none

/-- Parser state of the host string-literal parser: scanning normally, just
after a backslash, or inside a decimal escape holding the accumulated value
and the number of digits read so far. -/
inductive UState where
  | norm
  | esc
  | dig (v k : Nat)

/-- Modelled from the spec (C2's source sentence): the host's (Lua's)
string-literal parser over the *contents* following the opening quote: a
closing `"` must end the literal; `\\` introduces either a decimal escape of
up to three digits whose value must fit in a byte, or one of the named
escapes `\\a \\b \\f \\n \\r \\t \\v \\" \\\\`; every other byte stands for
itself. -/
def unqS : UState → Bytes → Option Bytes
  | _, [] => none
  | .norm, 34 :: r => if r.isEmpty then some [] else none
  | .norm, 92 :: r => unqS .esc r
  | .norm, b :: r => (unqS .norm r).map (b :: ·)
  | .esc, c :: r =>
    if isdigitB c then unqS (.dig (c - 48) 1) r
    else
      match escMap c with
      | some b => (unqS .norm r).map (b :: ·)
      | none => none
  | .dig v k, b :: r =>
    if isdigitB b ∧ k < 3 then unqS (.dig (v * 10 + (b - 48)) (k + 1)) r
    else if 255 < v then none
    else if b = 34 then (if r.isEmpty then some [v] else none)
    else if b = 92 then (unqS .esc r).map (v :: ·)
    else (unqS .norm r).map (fun l => v :: b :: l)

/-- The host literal parser on the contents after the opening quote. -/
def unq (l : Bytes) : Option Bytes := unqS .norm l

/-- Modelled from the spec: parse a complete double-quoted string literal
with the host's escape rules. -/
def luaUnquote (l : Bytes) : Option Bytes :=
  match l with
  | 34 :: r => unq r
  | _ => none

/-- One token of the interior of a `%q`-quoted string: the replacement
character, a verbatim well-formed multi-byte UTF-8 sequence, a named
backslash escape, a decimal backslash escape, or a printable non-control
byte other than `"` and `\`. -/
inductive QTok : Bytes → Prop where
  | rep : QTok replacementChar
  | multi (t : Bytes) : 2 ≤ t.length → utf8len t = t.length → QTok t
  | esc2 (b : Nat) :
      b ∈ ([34, 92, 48, 97, 98, 116, 110, 118, 102, 114] : List Nat) →
      QTok [92, b]
  | escDec (d : Bytes) : d ≠ [] → (∀ c ∈ d, 48 ≤ c ∧ c ≤ 57) →
      QTok (92 :: d)
  | plain (b : Nat) : 32 ≤ b → b ≤ 126 → b ≠ 34 → b ≠ 92 → QTok [b]

/-- A concatenation of interior tokens. -/
inductive QToks : Bytes → Prop where
  | nil : QToks []
  | cons {t r : Bytes} : QTok t → QToks r → QToks (t ++ r)

theorem bglen (s : Bytes) (i : Nat) (h : bget s i ≠ 0) : i < s.length := by
  by_contra hc
  push_neg at hc
  exact h (List.getD_eq_default _ _ hc)

theorem tail_nz {c : Nat} (h : is_utf8tail c = true) : c ≠ 0 := by
  rintro rfl
  exact absurd h (by decide)

theorem nfirst_nz {c : Nat} (h : ¬ is_utf8firstb c = true) : c ≠ 0 := by
  rintro rfl
  exact h (by decide)

theorem u8_region (s : Bytes) :
    bget s 0 ≤ 0x7F ∨ (0x80 ≤ bget s 0 ∧ bget s 0 ≤ 0xC1) ∨
    (0xC2 ≤ bget s 0 ∧ bget s 0 ≤ 0xDF) ∨ bget s 0 = 0xE0 ∨
    (0xE1 ≤ bget s 0 ∧ bget s 0 ≤ 0xEC) ∨ bget s 0 = 0xED ∨
    (0xEE ≤ bget s 0 ∧ bget s 0 ≤ 0xEF) ∨ bget s 0 = 0xF0 ∨
    (0xF1 ≤ bget s 0 ∧ bget s 0 ≤ 0xF3) ∨ bget s 0 = 0xF4 ∨
    0xF5 ≤ bget s 0 := by
  omega

theorem u8_r1 (s : Bytes) (h : bget s 0 ≤ 0x7F) : utf8len s = 1 := by
  unfold utf8len
  rw [if_pos h]

theorem u8_r2 (s : Bytes) (h1 : 0x80 ≤ bget s 0) (h2 : bget s 0 ≤ 0xC1) :
    utf8len s = -1 := by
  unfold utf8len
  rw [if_neg (by omega), if_pos h2]

theorem u8_r3 (s : Bytes) (h1 : 0xC2 ≤ bget s 0) (h2 : bget s 0 ≤ 0xDF) :
    utf8len s =
      if is_utf8tail (bget s 1) then 2
      else if is_utf8firstb (bget s 1) then -1
      else -2 := by
  unfold utf8len
  rw [if_neg (by intro hq; omega), if_neg (by omega), if_pos h2]

theorem u8_r4 (s : Bytes) (h : bget s 0 = 0xE0) :
    utf8len s =
      if 0xA0 ≤ bget s 1 ∧ bget s 1 ≤ 0xBF ∧ is_utf8tail (bget s 2) then 3
      else if is_utf8firstb (bget s 1) then -1
      else if is_utf8firstb (bget s 2) then -2
      else -3 := by
  unfold utf8len
  rw [if_neg (by intro hq; omega), if_neg (by omega), if_neg (by intro hq; omega), if_pos h]

theorem u8_r5 (s : Bytes) (h1 : 0xE1 ≤ bget s 0) (h2 : bget s 0 ≤ 0xEC) :
    utf8len s =
      if is_utf8tail (bget s 1) ∧ is_utf8tail (bget s 2) then 3
      else if is_utf8firstb (bget s 1) then -1
      else if is_utf8firstb (bget s 2) then -2
      else -3 := by
  unfold utf8len
  rw [if_neg (by omega), if_neg (by intro hq; omega), if_neg (by omega),
    if_neg (by intro hq; omega), if_pos h2]

theorem u8_r6 (s : Bytes) (h : bget s 0 = 0xED) :
    utf8len s =
      if 0x80 ≤ bget s 1 ∧ bget s 1 ≤ 0x9F ∧ is_utf8tail (bget s 2) then 3
      else if is_utf8firstb (bget s 1) then -1
      else if is_utf8firstb (bget s 2) then -2
      else -3 := by
  unfold utf8len
  rw [if_neg (by omega), if_neg (by intro hq; omega), if_neg (by omega),
    if_neg (by intro hq; omega), if_neg (by omega), if_pos h]

theorem u8_r7 (s : Bytes) (h1 : 0xEE ≤ bget s 0) (h2 : bget s 0 ≤ 0xEF) :
    utf8len s =
      if is_utf8tail (bget s 1) ∧ is_utf8tail (bget s 2) then 3
      else if is_utf8firstb (bget s 1) then -1
      else if is_utf8firstb (bget s 2) then -2
      else -3 := by
  unfold utf8len
  rw [if_neg (by intro hq; omega), if_neg (by omega), if_neg (by intro hq; omega),
    if_neg (by omega), if_neg (by intro hq; omega), if_neg (by omega), if_pos h2]

theorem u8_r8 (s : Bytes) (h : bget s 0 = 0xF0) :
    utf8len s =
      if 0x90 ≤ bget s 1 ∧ bget s 1 ≤ 0xBF ∧ is_utf8tail (bget s 2) ∧
          is_utf8tail (bget s 3) then 4
      else if is_utf8firstb (bget s 1) then -1
      else if is_utf8firstb (bget s 2) then -2
      else if is_utf8firstb (bget s 3) then -3
      else -4 := by
  unfold utf8len
  rw [if_neg (by intro hq; omega), if_neg (by omega), if_neg (by intro hq; omega),
    if_neg (by omega), if_neg (by intro hq; omega), if_neg (by omega),
    if_neg (by intro hq; omega), if_pos h]

theorem u8_r9 (s : Bytes) (h1 : 0xF1 ≤ bget s 0) (h2 : bget s 0 ≤ 0xF3) :
    utf8len s =
      if is_utf8tail (bget s 1) ∧ is_utf8tail (bget s 2) ∧
          is_utf8tail (bget s 3) then 4
      else if is_utf8firstb (bget s 1) then -1
      else if is_utf8firstb (bget s 2) then -2
      else if is_utf8firstb (bget s 3) then -3
      else -4 := by
  unfold utf8len
  rw [if_neg (by omega), if_neg (by intro hq; omega), if_neg (by omega),
    if_neg (by intro hq; omega), if_neg (by omega), if_neg (by intro hq; omega),
    if_neg (by omega), if_neg (by intro hq; omega), if_pos h2]

theorem u8_r10 (s : Bytes) (h : bget s 0 = 0xF4) :
    utf8len s =
      if 0x80 ≤ bget s 1 ∧ bget s 1 ≤ 0x8F ∧ is_utf8tail (bget s 2) ∧
          is_utf8tail (bget s 3) then 4
      else if is_utf8firstb (bget s 1) then -1
      else if is_utf8firstb (bget s 2) then -2
      else if is_utf8firstb (bget s 3) then -3
      else -4 := by
  unfold utf8len
  rw [if_neg (by omega), if_neg (by intro hq; omega), if_neg (by omega),
    if_neg (by intro hq; omega), if_neg (by omega), if_neg (by intro hq; omega),
    if_neg (by omega), if_neg (by intro hq; omega), if_neg (by omega), if_pos h]

theorem u8_r11 (s : Bytes) (h : 0xF5 ≤ bget s 0) : utf8len s = -1 := by
  unfold utf8len
  rw [if_neg (by intro hq; omega), if_neg (by omega), if_neg (by intro hq; omega),
    if_neg (by omega), if_neg (by intro hq; omega), if_neg (by omega),
    if_neg (by intro hq; omega), if_neg (by omega), if_neg (by intro hq; omega),
    if_neg (by omega)]

theorem utf8len_natAbs_pos (s : Bytes) : 1 ≤ (utf8len s).natAbs := by
  rcases u8_region s with h | h | h | h | h | h | h | h | h | h | h
  · rw [u8_r1 s h]; decide
  · rw [u8_r2 s h.1 h.2]; decide
  · rw [u8_r3 s h.1 h.2]; split_ifs <;> decide
  · rw [u8_r4 s h]; split_ifs <;> decide
  · rw [u8_r5 s h.1 h.2]; split_ifs <;> decide
  · rw [u8_r6 s h]; split_ifs <;> decide
  · rw [u8_r7 s h.1 h.2]; split_ifs <;> decide
  · rw [u8_r8 s h]; split_ifs <;> decide
  · rw [u8_r9 s h.1 h.2]; split_ifs <;> decide
  · rw [u8_r10 s h]; split_ifs <;> decide
  · rw [u8_r11 s h]; decide

theorem utf8len_le_length (s : Bytes) (h : s ≠ []) :
    (utf8len s).natAbs ≤ s.length := by
  have hl : 0 < s.length := List.length_pos.mpr h
  rcases u8_region s with h0 | h0 | h0 | h0 | h0 | h0 | h0 | h0 | h0 | h0 | h0
  · rw [u8_r1 s h0]; omega
  · rw [u8_r2 s h0.1 h0.2]; omega
  · rw [u8_r3 s h0.1 h0.2]
    split_ifs with a b
    · have := bglen s 1 (tail_nz a); omega
    · omega
    · have := bglen s 1 (nfirst_nz b); omega
  · rw [u8_r4 s h0]
    split_ifs with a b c
    · have := bglen s 2 (tail_nz a.2.2); omega
    · omega
    · have := bglen s 1 (nfirst_nz b); omega
    · have := bglen s 2 (nfirst_nz c); omega
  · rw [u8_r5 s h0.1 h0.2]
    split_ifs with a b c
    · have := bglen s 2 (tail_nz a.2); omega
    · omega
    · have := bglen s 1 (nfirst_nz b); omega
    · have := bglen s 2 (nfirst_nz c); omega
  · rw [u8_r6 s h0]
    split_ifs with a b c
    · have := bglen s 2 (tail_nz a.2.2); omega
    · omega
    · have := bglen s 1 (nfirst_nz b); omega
    · have := bglen s 2 (nfirst_nz c); omega
  · rw [u8_r7 s h0.1 h0.2]
    split_ifs with a b c
    · have := bglen s 2 (tail_nz a.2); omega
    · omega
    · have := bglen s 1 (nfirst_nz b); omega
    · have := bglen s 2 (nfirst_nz c); omega
  · rw [u8_r8 s h0]
    split_ifs with a b c d
    · have := bglen s 3 (tail_nz a.2.2.2); omega
    · omega
    · have := bglen s 1 (nfirst_nz b); omega
    · have := bglen s 2 (nfirst_nz c); omega
    · have := bglen s 3 (nfirst_nz d); omega
  · rw [u8_r9 s h0.1 h0.2]
    split_ifs with a b c d
    · have := bglen s 3 (tail_nz a.2.2); omega
    · omega
    · have := bglen s 1 (nfirst_nz b); omega
    · have := bglen s 2 (nfirst_nz c); omega
    · have := bglen s 3 (nfirst_nz d); omega
  · rw [u8_r10 s h0]
    split_ifs with a b c d
    · have := bglen s 3 (tail_nz a.2.2.2); omega
    · omega
    · have := bglen s 1 (nfirst_nz b); omega
    · have := bglen s 2 (nfirst_nz c); omega
    · have := bglen s 3 (nfirst_nz d); omega
  · rw [u8_r11 s h0]; omega

theorem bget_take : ∀ (s : Bytes) (n i : Nat), i < n →
    bget (s.take n) i = bget s i
  | [], _, _, _ => by simp [bget]
  | _ :: _, 0, _, h => absurd h (by omega)
  | b :: t, n + 1, 0, _ => rfl
  | b :: t, n + 1, i + 1, h => by
    have ih := bget_take t n i (by omega)
    simpa [bget, List.take] using ih

theorem utf8len_take (s : Bytes) (h : 0 < utf8len s) :
    utf8len (s.take (utf8len s).natAbs) = utf8len s := by
  rcases u8_region s with h0 | h0 | h0 | h0 | h0 | h0 | h0 | h0 | h0 | h0 | h0
  · rw [u8_r1 s h0]
    rw [show ((1 : Int)).natAbs = 1 from rfl]
    exact u8_r1 _ (by rw [bget_take s 1 0 (by omega)]; exact h0)
  · rw [u8_r2 s h0.1 h0.2] at h
    exact absurd h (by decide)
  · rw [u8_r3 s h0.1 h0.2] at h ⊢
    split_ifs at h ⊢ with a b
    · rw [show ((2 : Int)).natAbs = 2 from rfl]
      rw [u8_r3 (s.take 2) (by rw [bget_take s 2 0 (by omega)]; exact h0.1)
        (by rw [bget_take s 2 0 (by omega)]; exact h0.2)]
      rw [bget_take s 2 1 (by omega), if_pos a]
    · exact absurd h (by decide)
    · exact absurd h (by decide)
  · rw [u8_r4 s h0] at h ⊢
    split_ifs at h ⊢ with a b c
    · rw [show ((3 : Int)).natAbs = 3 from rfl]
      rw [u8_r4 (s.take 3) (by rw [bget_take s 3 0 (by omega)]; exact h0)]
      rw [bget_take s 3 1 (by omega), bget_take s 3 2 (by omega), if_pos a]
    · exact absurd h (by decide)
    · exact absurd h (by decide)
    · exact absurd h (by decide)
  · rw [u8_r5 s h0.1 h0.2] at h ⊢
    split_ifs at h ⊢ with a b c
    · rw [show ((3 : Int)).natAbs = 3 from rfl]
      rw [u8_r5 (s.take 3) (by rw [bget_take s 3 0 (by omega)]; exact h0.1)
        (by rw [bget_take s 3 0 (by omega)]; exact h0.2)]
      rw [bget_take s 3 1 (by omega), bget_take s 3 2 (by omega), if_pos a]
    · exact absurd h (by decide)
    · exact absurd h (by decide)
    · exact absurd h (by decide)
  · rw [u8_r6 s h0] at h ⊢
    split_ifs at h ⊢ with a b c
    · rw [show ((3 : Int)).natAbs = 3 from rfl]
      rw [u8_r6 (s.take 3) (by rw [bget_take s 3 0 (by omega)]; exact h0)]
      rw [bget_take s 3 1 (by omega), bget_take s 3 2 (by omega), if_pos a]
    · exact absurd h (by decide)
    · exact absurd h (by decide)
    · exact absurd h (by decide)
  · rw [u8_r7 s h0.1 h0.2] at h ⊢
    split_ifs at h ⊢ with a b c
    · rw [show ((3 : Int)).natAbs = 3 from rfl]
      rw [u8_r7 (s.take 3) (by rw [bget_take s 3 0 (by omega)]; exact h0.1)
        (by rw [bget_take s 3 0 (by omega)]; exact h0.2)]
      rw [bget_take s 3 1 (by omega), bget_take s 3 2 (by omega), if_pos a]
    · exact absurd h (by decide)
    · exact absurd h (by decide)
    · exact absurd h (by decide)
  · rw [u8_r8 s h0] at h ⊢
    split_ifs at h ⊢ with a b c d
    · rw [show ((4 : Int)).natAbs = 4 from rfl]
      rw [u8_r8 (s.take 4) (by rw [bget_take s 4 0 (by omega)]; exact h0)]
      rw [bget_take s 4 1 (by omega), bget_take s 4 2 (by omega),
        bget_take s 4 3 (by omega), if_pos a]
    · exact absurd h (by decide)
    · exact absurd h (by decide)
    · exact absurd h (by decide)
    · exact absurd h (by decide)
  · rw [u8_r9 s h0.1 h0.2] at h ⊢
    split_ifs at h ⊢ with a b c d
    · rw [show ((4 : Int)).natAbs = 4 from rfl]
      rw [u8_r9 (s.take 4) (by rw [bget_take s 4 0 (by omega)]; exact h0.1)
        (by rw [bget_take s 4 0 (by omega)]; exact h0.2)]
      rw [bget_take s 4 1 (by omega), bget_take s 4 2 (by omega),
        bget_take s 4 3 (by omega), if_pos a]
    · exact absurd h (by decide)
    · exact absurd h (by decide)
    · exact absurd h (by decide)
    · exact absurd h (by decide)
  · rw [u8_r10 s h0] at h ⊢
    split_ifs at h ⊢ with a b c d
    · rw [show ((4 : Int)).natAbs = 4 from rfl]
      rw [u8_r10 (s.take 4) (by rw [bget_take s 4 0 (by omega)]; exact h0)]
      rw [bget_take s 4 1 (by omega), bget_take s 4 2 (by omega),
        bget_take s 4 3 (by omega), if_pos a]
    · exact absurd h (by decide)
    · exact absurd h (by decide)
    · exact absurd h (by decide)
    · exact absurd h (by decide)
  · rw [u8_r11 s h0] at h
    exact absurd h (by decide)

theorem quoteLoopF_congr (f : Nat) : ∀ (g : Nat) (s : Bytes),
    s.length < f → s.length < g → quoteLoopF f s = quoteLoopF g s := by
  induction f with
  | zero => exact fun g s hf _ => absurd hf (by omega)
  | succ f ih =>
    intro g s hf hg
    cases g with
    | zero => exact absurd hg (by omega)
    | succ g =>
      by_cases he : s.isEmpty
      · simp [quoteLoopF, he]
      · have hne : s ≠ [] := fun e => by subst e; simp at he
        have h1 := utf8len_natAbs_pos s
        have h2 := utf8len_le_length s hne
        have hlp : 0 < s.length := List.length_pos.mpr hne
        have he' : s.isEmpty = false := by
          cases s
          · exact absurd rfl hne
          · rfl
        simp only [quoteLoopF, he', Bool.false_eq_true, if_false]
        split_ifs with c1 c2
        · rw [ih g (s.drop (utf8len s).natAbs)
            (by rw [List.length_drop]; omega) (by rw [List.length_drop]; omega)]
        · rw [ih g (s.drop (utf8len s).natAbs)
            (by rw [List.length_drop]; omega) (by rw [List.length_drop]; omega)]
        · rw [ih g (s.drop 1)
            (by rw [List.length_drop]; omega) (by rw [List.length_drop]; omega)]

theorem quoteLoop_neg (s : Bytes) (hs : s ≠ []) (h : utf8len s < 0) :
    quoteLoop s = replacementChar ++ quoteLoop (s.drop (utf8len s).natAbs) := by
  have h1 := utf8len_natAbs_pos s
  have h2 := utf8len_le_length s hs
  have hlp : 0 < s.length := List.length_pos.mpr hs
  have he' : s.isEmpty = false := by
    cases s
    · exact absurd rfl hs
    · rfl
  unfold quoteLoop
  simp only [quoteLoopF, he', Bool.false_eq_true, if_false]
  rw [if_pos h]
  rw [quoteLoopF_congr s.length ((s.drop (utf8len s).natAbs).length + 1) _
    (by rw [List.length_drop]; omega) (by omega)]
  simp only [quoteLoopF]

theorem quoteLoop_multi (s : Bytes) (h : 1 < utf8len s) :
    quoteLoop s =
      s.take (utf8len s).natAbs ++ quoteLoop (s.drop (utf8len s).natAbs) := by
  have hs : s ≠ [] := by
    rintro rfl
    rw [show utf8len [] = 1 from by decide] at h
    exact absurd h (by decide)
  have h1 := utf8len_natAbs_pos s
  have h2 := utf8len_le_length s hs
  have hlp : 0 < s.length := List.length_pos.mpr hs
  have he' : s.isEmpty = false := by
    cases s
    · exact absurd rfl hs
    · rfl
  unfold quoteLoop
  simp only [quoteLoopF, he', Bool.false_eq_true, if_false]
  rw [if_neg (by intro hq; omega), if_pos h]
  rw [quoteLoopF_congr s.length ((s.drop (utf8len s).natAbs).length + 1) _
    (by rw [List.length_drop]; omega) (by omega)]
  simp only [quoteLoopF]

theorem quoteLoop_one (s : Bytes) (hs : s ≠ []) (h : utf8len s = 1) :
    quoteLoop s = escByte (read0 s) (bget s 1) ++ quoteLoop (s.drop 1) := by
  have hlp : 0 < s.length := List.length_pos.mpr hs
  have he' : s.isEmpty = false := by
    cases s
    · exact absurd rfl hs
    · rfl
  unfold quoteLoop
  simp only [quoteLoopF, he', Bool.false_eq_true, if_false]
  rw [if_neg (by omega), if_neg (by intro hq; omega)]
  rw [quoteLoopF_congr s.length ((s.drop 1).length + 1) _
    (by rw [List.length_drop]; omega) (by omega)]
  simp only [quoteLoopF]

theorem utf8wfF_congr (f : Nat) : ∀ (g : Nat) (s : Bytes),
    s.length < f → s.length < g → utf8wfF f s = utf8wfF g s := by
  induction f with
  | zero => exact fun g s hf _ => absurd hf (by omega)
  | succ f ih =>
    intro g s hf hg
    cases g with
    | zero => exact absurd hg (by omega)
    | succ g =>
      by_cases he : s.isEmpty
      · simp [utf8wfF, he]
      · have hne : s ≠ [] := fun e => by subst e; simp at he
        have h1 := utf8len_natAbs_pos s
        have h2 := utf8len_le_length s hne
        have hlp : 0 < s.length := List.length_pos.mpr hne
        have he' : s.isEmpty = false := by
          cases s
          · exact absurd rfl hne
          · rfl
        simp only [utf8wfF, he', Bool.false_eq_true, if_false]
        split_ifs with c1
        · exact ih g (s.drop (utf8len s).natAbs)
            (by rw [List.length_drop]; omega) (by rw [List.length_drop]; omega)
        · rfl

theorem utf8wf_step (s : Bytes) (hs : s ≠ []) (h : utf8wf s = true) :
    0 < utf8len s ∧ utf8wf (s.drop (utf8len s).natAbs) = true := by
  have h1 := utf8len_natAbs_pos s
  have h2 := utf8len_le_length s hs
  have hlp : 0 < s.length := List.length_pos.mpr hs
  have he' : s.isEmpty = false := by
    cases s
    · exact absurd rfl hs
    · rfl
  unfold utf8wf at h
  simp only [utf8wfF, he', Bool.false_eq_true, if_false] at h
  by_cases hc : 0 < utf8len s
  · refine ⟨hc, ?_⟩
    rw [if_pos hc] at h
    rw [utf8wfF_congr s.length ((s.drop (utf8len s).natAbs).length + 1) _
      (by rw [List.length_drop]; omega) (by omega)] at h
    exact h
  · rw [if_neg hc] at h
    exact absurd h (by decide)

theorem scan_literal (em : Bytes) (stack : List LValue) (narg : Nat) :
    ∀ (lit : Bytes) (k : Nat) (rest run : Bytes) (frags : List Bytes)
      (na : Nat), (∀ b ∈ lit, b ≠ 0 ∧ b ≠ 37) →
      scan em stack narg (lit.length + k) (lit ++ rest) run frags na =
        scan em stack narg k rest (run ++ lit) frags na := by
  intro lit
  induction lit with
  | nil => intro k rest run frags na _; simp
  | cons b t ih =>
    intro k rest run frags na hb
    have hb0 : b ≠ 0 := (hb b (by simp)).1
    have hb37 : b ≠ 37 := (hb b (by simp)).2
    simp only [List.length_cons, List.cons_append]
    rw [show t.length + 1 + k = (t.length + k) + 1 from by omega]
    simp only [scan]
    rw [if_neg hb0, if_neg hb37]
    rw [ih k rest (run ++ [b]) frags na (fun c hc => hb c (by simp [hc]))]
    rw [List.append_assoc]
    rfl

theorem scan_pm (em : Bytes) (stack : List LValue) (narg : Nat) (run : Bytes)
    (frags : List Bytes) (na : Nat) :
    scan em stack narg 3 [37, 109] run frags na =
      .ok ((if run.isEmpty then frags else frags ++ [run]) ++ [em]) na := by
  have h : scan em stack narg 3 [37, 109] run frags na =
      .ok (((if run.isEmpty then frags else frags ++ [run]) ++ [em]) ++ [])
        na := rfl
  rw [h, List.append_nil]

/-- Claim C4: `%m` consumes no argument and emits the platform error text,
ignoring the rest of the specifier: the type dispatch on `m` returns the
`strerror(errno)` bytes unchanged for any placeholder/argument state, and a
call on a literal template followed by `%m` appends the error text and
returns all arguments as unused. -/
theorem claim_C4_errno_specifier :
    (∀ (em : Bytes) (stack : List LValue) (narg : Nat) (ph : Bytes)
        (na : Nat), emitType em stack narg ph 109 na = .ok (em, na)) ∧
    ∀ (em lit : Bytes) (args : List LValue),
      (∀ b ∈ lit, b ≠ 0 ∧ b ≠ 37) →
      formatLua em (.vstr (lit ++ [37, 109])) args =
        match args with
        | [] => .one (lit ++ em)
        | _ => .three (lit ++ em) args args.length := by
  constructor
  · intro em stack narg ph na
    rfl
  · intro em lit args hb
    unfold formatLua formatArguments
    simp only [List.headD_cons]
    simp only [List.length_append, List.length_cons, List.length_nil]
    rw [scan_literal em _ _ lit 3 [37, 109] [] [] 1 hb]
    rw [scan_pm]
    cases args with
    | nil =>
      cases lit with
      | nil => simp
      | cons a t => simp
    | cons a t =>
      cases lit with
      | nil => simp
      | cons c u => simp

theorem claim_C4_witness :
    formatLua [69, 82, 82] (.vstr [101, 114, 114, 58, 32, 37, 109])
        [.vstr [117, 110, 117, 115, 101, 100]] =
      .three [101, 114, 114, 58, 32, 69, 82, 82]
        [.vstr [117, 110, 117, 115, 101, 100]] 1 := by
  have h := claim_C4_errno_specifier.2 [69, 82, 82] [101, 114, 114, 58, 32]
    [.vstr [117, 110, 117, 115, 101, 100]] (by decide)
  simpa using h

/-- Claim C1 (code-bug evidence): on a template ending in a lone `%`, the
scanner model reaches the out-of-bounds state `ub` — the C `strchr`-based
flags loop matches the NUL terminator and advances the cursor past the end of
the string — instead of raising the unsupported-type error the spec
prescribes.  This holds both with and without surplus arguments. -/
theorem claim_C1_lone_percent_reads_past_end :
    formatLua [] (.vstr [37]) [] = .ub ∧
    formatArguments [] [.vstr [120, 37], .vnum 1] = .ub := by
  decide

/-- Claim C5: a non-string template value short-circuits the call: no
formatting happens, the result string is empty, and the template together
with every argument comes back in the leftover sequence with the full
count. -/
theorem claim_C5_nonstring_template_passthrough (em : Bytes) (v : LValue)
    (args : List LValue) (h : isStr v = false) :
    formatLua em v args = .three [] (v :: args) (v :: args).length := by
  cases v with
  | vstr s => simp [isStr] at h
  | vnum n => unfold formatLua formatArguments; simp
  | vbool b => unfold formatLua formatArguments; simp
  | vnil => unfold formatLua formatArguments; simp
  | vother => unfold formatLua formatArguments; simp

theorem claim_C5_witness :
    formatLua [] (.vnum 7) [.vstr [97]] =
      .three [] [.vnum 7, .vstr [97]] 2 :=
  claim_C5_nonstring_template_passthrough [] (.vnum 7) [.vstr [97]] rfl

/-- Claim C7: the number of leftover arguments equals `narg` minus the index
of the last consumed argument; when positive the leftovers are returned in
their original order together with the count, otherwise only the result
string is returned; in particular `format("%d", 1, 2, 3)` returns
`("1", [2, 3], 2)`. -/
theorem claim_C7_leftover_arguments :
    (∀ em : Bytes, formatLua em (.vstr [37, 100]) [.vnum 1, .vnum 2, .vnum 3] =
      .three [49] [.vnum 2, .vnum 3] 2) ∧
    ∀ (em : Bytes) (t : LValue) (args : List LValue) (frags : List Bytes)
      (la : Nat), formatArguments em (t :: args) = .ok frags la →
      formatLua em t args =
        if 0 < (t :: args).length - la then
          .three (frags.foldl (· ++ ·) []) ((t :: args).drop la)
            ((t :: args).length - la)
        else .one (frags.foldl (· ++ ·) []) := by
  constructor
  · intro em
    rfl
  · intro em t args frags la h
    unfold formatLua
    simp only [h]

theorem claim_C7_witness :
    formatLua [] (.vstr [37, 100]) [.vnum 1] = .one [49] := by
  have h := claim_C7_leftover_arguments.2 [] (.vstr [37, 100]) [.vnum 1]
    [[49]] 2 (by decide)
  simpa using h

/-- Claim C9: at every step of the `%q` byte scan, the magnitude of the
decoder result is at least 1 and never exceeds the number of remaining
bytes, so the `size_t` remaining-length counter never underflows and the
scan always terminates. -/
theorem claim_C9_decoder_magnitude_bounds (s : Bytes) (h : s ≠ []) :
    1 ≤ (utf8len s).natAbs ∧ (utf8len s).natAbs ≤ s.length :=
  ⟨utf8len_natAbs_pos s, utf8len_le_length s h⟩

theorem claim_C9_witness :
    ([0xE0, 0x80] : Bytes) ≠ [] ∧
    (1 ≤ (utf8len [0xE0, 0x80]).natAbs ∧
      (utf8len [0xE0, 0x80]).natAbs ≤ ([0xE0, 0x80] : Bytes).length) :=
  ⟨by decide, claim_C9_decoder_magnitude_bounds [0xE0, 0x80] (by decide)⟩

theorem bget_lt (s : Bytes) (hb : ∀ b ∈ s, b < 256) (i : Nat) :
    bget s i < 256 := by
  unfold bget
  rcases Nat.lt_or_ge i s.length with h | h
  · rw [List.getD_eq_getElem s 0 h]
    exact hb _ (List.getElem_mem h)
  · rw [List.getD_eq_default _ _ h]
    omega

set_option maxRecDepth 4096 in
/-- Claim C3: the lead-byte classifier accepts exactly `00-7F`, `C2-DF`,
`E0-EF`, `F0-F4`, and the decoder agrees byte-for-byte with the
`decode_at` contract transcribed from the spec's Unicode Table 3-7 rule
list (positive well-formed lengths and negative resynchronization skips). -/
theorem claim_C3_utf8_decoder_matches_spec_table :
    (∀ b : Nat, is_utf8firstb b = true ↔
      (b ≤ 0x7F ∨ (0xC2 ≤ b ∧ b ≤ 0xDF) ∨ (0xE0 ≤ b ∧ b ≤ 0xEF) ∨
        (0xF0 ≤ b ∧ b ≤ 0xF4))) ∧
    ∀ s : Bytes, (∀ b ∈ s, b < 256) → utf8len s = decode_at s := by
  constructor
  · intro b
    unfold is_utf8firstb
    split_ifs <;> simp <;> omega
  · intro s hb
    have h1 := bget_lt s hb 1
    have h2 := bget_lt s hb 2
    have h3 := bget_lt s hb 3
    have e : ∀ c : Nat, c < 256 → is_utf8tail c = contS c := by decide
    have ef : is_utf8firstb = classify_lead := rfl
    unfold utf8len decode_at
    rw [e _ h1, e _ h2, e _ h3, ef]

theorem claim_C3_witness :
    (is_utf8firstb 0xC5 = true ↔
      ((0xC5 : Nat) ≤ 0x7F ∨ ((0xC2 : Nat) ≤ 0xC5 ∧ (0xC5 : Nat) ≤ 0xDF) ∨
        ((0xE0 : Nat) ≤ 0xC5 ∧ (0xC5 : Nat) ≤ 0xEF) ∨
        ((0xF0 : Nat) ≤ 0xC5 ∧ (0xC5 : Nat) ≤ 0xF4))) ∧
    utf8len [0xE2, 0x82, 0xAC] = decode_at [0xE2, 0x82, 0xAC] :=
  ⟨claim_C3_utf8_decoder_matches_spec_table.1 0xC5,
    claim_C3_utf8_decoder_matches_spec_table.2 [0xE2, 0x82, 0xAC] (by decide)⟩

theorem natBaseAux_len10 : ∀ (f n k : Nat), n < f → n < 10 ^ k → 1 ≤ k →
    (natBaseAux 10 false f n).length ≤ k := by
  intro f
  induction f with
  | zero => intro n k h1 _ _; exact absurd h1 (by omega)
  | succ f ih =>
    intro n k h1 h2 h3
    simp only [natBaseAux]
    by_cases hn : n < 10
    · rw [if_pos hn]
      simpa using h3
    · rw [if_neg hn]
      have hk2 : 2 ≤ k := by
        rcases Nat.lt_or_ge k 2 with hc | hc
        · have hk1 : k = 1 := by omega
          subst hk1
          norm_num at h2
          omega
        · exact hc
      have e1 : n / 10 < f := by omega
      have e2 : n / 10 < 10 ^ (k - 1) := by
        have hp : 10 ^ k = 10 ^ (k - 1) * 10 := by
          rw [← pow_succ]
          congr 1
          omega
        rw [hp] at h2
        omega
      have := ih (n / 10) (k - 1) e1 e2 (by omega)
      simp only [List.length_append, List.length_cons, List.length_nil]
      omega

theorem natDec_le (n k : Nat) (h2 : n < 10 ^ k) (h3 : 1 ≤ k) :
    (natDec n).length ≤ k :=
  natBaseAux_len10 (n + 1) n k (by omega) h2 h3

theorem toCInt_bounds (w : Int) :
    -(2 ^ 31) ≤ toCInt w ∧ toCInt w < 2 ^ 31 := by
  unfold toCInt
  have h1 := Int.emod_nonneg (w + 2 ^ 31) (by norm_num : (2 ^ 32 : Int) ≠ 0)
  have h2 := Int.emod_lt_of_pos (w + 2 ^ 31)
    (by norm_num : (0 : Int) < 2 ^ 32)
  constructor <;> omega

theorem intDec_toCInt_len (w : Int) : (intDec (toCInt w)).length ≤ 11 := by
  obtain ⟨hl, hu⟩ := toCInt_bounds w
  have hab : (toCInt w).natAbs ≤ 2 ^ 31 := by omega
  have hlt : (toCInt w).natAbs < 10 ^ 10 := by
    have : (2 : Nat) ^ 31 < 10 ^ 10 := by norm_num
    omega
  unfold intDec
  split_ifs with hn
  · simp only [List.length_cons]
    have := natDec_le (toCInt w).natAbs 10 hlt (by omega)
    omega
  · have h2 : (toCInt w).toNat < 10 ^ 10 := by
      have : (2 : Nat) ^ 31 < 10 ^ 10 := by norm_num
      omega
    have := natDec_le (toCInt w).toNat 10 h2 (by omega)
    omega

theorem formatArgs_star_d (em : Bytes) (w v : Int) :
    formatArguments em [.vstr [37, 42, 100], .vnum w, .vnum v] =
      .ok [cPrintf (37 :: (intDec (toCInt w) ++ [100])) 100 (.inl v)] 3 := by
  have hA := intDec_toCInt_len w
  have e0 : copyPH [] [37] 255 = some ([37], 254) := by decide
  have e1 : copyPH [37] (intDec (toCInt w)) 254 =
      some (37 :: intDec (toCInt w), 254 - (intDec (toCInt w)).length) := by
    unfold copyPH
    rw [if_neg (by omega)]
    simp
  have e2 : copyPH (37 :: intDec (toCInt w)) [100]
        (254 - (intDec (toCInt w)).length) =
      some (37 :: (intDec (toCInt w) ++ [100]),
        254 - (intDec (toCInt w)).length - 1) := by
    unfold copyPH
    rw [if_neg (by simp; omega)]
    simp
  unfold formatArguments
  simp +decide [scan, flagsLoop, widthLoop, lmStep, emitType, uint2str,
    pushFormatString, read0, e0, e1, e2, flagSet, widthSet, lmSet, typeOk]

/-- Claim C6: a `*` in the width (or precision) position consumes the next
argument, which must be present and numeric — absence raises the
not-enough-arguments error naming the placeholder, a non-number raises the
checked-coercion error — and the argument's integer value is substituted as
literal decimal text into the reconstructed specifier; in particular
`format("%*d", 5, 3)` is `"    3"`, consuming width then value. -/
theorem claim_C6_dynamic_width :
    (∀ em : Bytes, formatLua em (.vstr [37, 42, 100]) [.vnum 5, .vnum 3] =
      .one [32, 32, 32, 32, 51]) ∧
    (∀ em : Bytes, formatArguments em [.vstr [37, 42, 100], .vnum 5,
      .vnum 3] = .ok [[32, 32, 32, 32, 51]] 3) ∧
    (∀ em : Bytes, formatArguments em [.vstr [37, 42, 100]] =
      .err (.notEnoughArguments [37, 42, 100])) ∧
    (∀ em : Bytes, formatArguments em [.vstr [37, 42, 100], .vstr [53],
      .vnum 3] = .err (.argTypeError 2)) ∧
    (∀ em : Bytes, formatLua em (.vstr [37, 46, 42, 100])
      [.vnum 4, .vnum 7] = .one [48, 48, 48, 55]) ∧
    ∀ (em : Bytes) (w v : Int),
      formatArguments em [.vstr [37, 42, 100], .vnum w, .vnum v] =
        .ok [cPrintf (37 :: (intDec (toCInt w) ++ [100])) 100 (.inl v)] 3 :=
  ⟨fun _ => rfl, fun _ => rfl, fun _ => rfl, fun _ => rfl, fun _ => rfl,
    formatArgs_star_d⟩

theorem natDec_small (n : Nat) (h : n < 1000) :
    natDec n =
      if n < 10 then [n + 48]
      else if n < 100 then [n / 10 + 48, n % 10 + 48]
      else [n / 100 + 48, n / 10 % 10 + 48, n % 10 + 48] := by
  unfold natDec
  rcases n with _ | m
  · decide
  by_cases h2 : m + 1 < 100
  · by_cases h1 : m + 1 < 10
    · simp only [natBaseAux]
      simp [h1]
    · have hb : (m + 1) / 10 < 10 := by omega
      have hm10 : (m + 1) % 10 < 10 := by omega
      simp only [natBaseAux]
      simp [h1, h2, hb, hm10]
  · have h1 : ¬ (m + 1 < 10) := by omega
    rcases m with _ | k
    · omega
    have hb : ¬ ((k + 1 + 1) / 10 < 10) := by omega
    have hc : (k + 1 + 1) / 10 / 10 < 10 := by omega
    have hm1 : (k + 1 + 1) % 10 < 10 := by omega
    have hm2 : (k + 1 + 1) / 10 % 10 < 10 := by omega
    have hd : (k + 1 + 1) / 100 < 10 := by omega
    simp only [natBaseAux]
    simp [h1, h2, hb, hc, hm1, hm2, hd, Nat.div_div_eq_div_mul]

theorem decVal_rep48 (k : Nat) (l : Bytes) :
    decVal (List.replicate k 48 ++ l) = decVal l := by
  induction k with
  | zero => simp
  | succ k ih => simpa [decVal, List.replicate_succ] using ih

theorem bget_cons1 (b : Nat) (rest : Bytes) :
    bget (b :: rest) 1 = rest.headD 0 := by
  cases rest <;> rfl

theorem natDec_digits (b : Nat) (h : b < 1000) :
    ∀ c ∈ natDec b, 48 ≤ c ∧ c ≤ 57 := by
  rw [natDec_small b h]
  split_ifs with h1 h2 <;> intro c hc <;> simp at hc <;> omega

theorem natDec_val (b : Nat) (h : b < 1000) : decVal (natDec b) = b := by
  rw [natDec_small b h]
  split_ifs with h1 h2 <;> simp [decVal] <;> omega

theorem natDec_ne (b : Nat) : natDec b ≠ [] := by
  unfold natDec
  simp only [natBaseAux]
  split_ifs <;> simp

theorem natDec_len_le3 (b : Nat) (h : b < 1000) : (natDec b).length ≤ 3 := by
  rw [natDec_small b h]
  split_ifs <;> simp

theorem natDec_head (b : Nat) (h0 : 0 < b) (h : b < 1000) :
    read0 (natDec b) ≠ 48 := by
  rw [natDec_small b h]
  split_ifs with h1 h2 <;> simp [read0] <;> omega

/-- Claim C8: in `%q` output, a control byte with no named escape becomes a
backslashed decimal escape: its digits decode back to the byte value, are
zero-padded to exactly three digits when the following input byte is an
ASCII digit, and are in shortest form (no leading zero) otherwise. -/
theorem claim_C8_decimal_escape_padding (b : Nat) (rest : Bytes)
    (hcn : b < 32 ∨ b = 127)
    (hnm : b ∉ ([0, 7, 8, 9, 10, 11, 12, 13] : List Nat)) :
    ∃ d : Bytes,
      quoteLoop (b :: rest) = (92 :: d) ++ quoteLoop rest ∧
      d ≠ [] ∧ (∀ c ∈ d, 48 ≤ c ∧ c ≤ 57) ∧ decVal d = b ∧
      (isdigitB (rest.headD 0) = true → d.length = 3) ∧
      (isdigitB (rest.headD 0) = false → read0 d ≠ 48) := by
  simp only [List.mem_cons, List.mem_singleton] at hnm
  push_neg at hnm
  obtain ⟨hn0, hn7, hn8, hn9, hn10, hn11, hn12, hn13, -⟩ := hnm
  have hb7f : bget (b :: rest) 0 ≤ 0x7F := by
    show b ≤ 0x7F
    omega
  have hlen1 : utf8len (b :: rest) = 1 := u8_r1 _ hb7f
  rw [quoteLoop_one (b :: rest) (by simp) hlen1]
  have hrd : read0 (b :: rest) = b := rfl
  rw [hrd, bget_cons1]
  have hic : iscntrlB b = true := by
    simp [iscntrlB]
    omega
  have hb1000 : b < 1000 := by omega
  unfold escByte
  rw [if_neg (by intro hq; omega), if_neg (by rw [hic]; simp), if_neg hn0,
    if_neg hn7, if_neg hn8, if_neg hn9, if_neg hn10, if_neg hn11,
    if_neg hn12, if_neg hn13]
  have hdrop : (b :: rest).drop 1 = rest := rfl
  rw [hdrop]
  by_cases hdg : isdigitB (rest.headD 0) = true
  · rw [if_pos hdg]
    refine ⟨leftPad 48 3 (natDec b), rfl, ?_, ?_, ?_, ?_, ?_⟩
    · unfold leftPad
      have := natDec_ne b
      simp [this]
    · intro c hc
      unfold leftPad at hc
      rw [List.mem_append] at hc
      rcases hc with hc | hc
      · rw [List.eq_of_mem_replicate hc]
        omega
      · exact natDec_digits b hb1000 c hc
    · unfold leftPad
      rw [decVal_rep48]
      exact natDec_val b hb1000
    · intro _
      unfold leftPad
      have := natDec_len_le3 b hb1000
      simp [List.length_replicate]
      omega
    · intro hcontra
      rw [hdg] at hcontra
      exact absurd hcontra (by decide)
  · rw [if_neg hdg]
    refine ⟨natDec b, rfl, natDec_ne b, natDec_digits b hb1000,
      natDec_val b hb1000, ?_, ?_⟩
    · intro hcontra
      exact absurd hcontra hdg
    · intro _
      exact natDec_head b (by omega) hb1000

theorem claim_C8_witness :
    ∃ d : Bytes,
      quoteLoop [5, 53] = (92 :: d) ++ quoteLoop [53] ∧
      d ≠ [] ∧ (∀ c ∈ d, 48 ≤ c ∧ c ≤ 57) ∧ decVal d = 5 ∧
      (isdigitB (([53] : Bytes).headD 0) = true → d.length = 3) ∧
      (isdigitB (([53] : Bytes).headD 0) = false → read0 d ≠ 48) :=
  claim_C8_decimal_escape_padding 5 [53] (by omega) (by decide)

theorem read0_eq_bget0 (s : Bytes) : read0 s = bget s 0 := by
  cases s <;> rfl

theorem tail_ge128 {c : Nat} (h : is_utf8tail c = true) : 128 ≤ c := by
  unfold is_utf8tail at h
  simp at h
  have h2 : c &&& 192 ≤ c := Nat.and_le_left
  omega

theorem utf8len_one_lead (s : Bytes) (h : utf8len s = 1) :
    bget s 0 ≤ 0x7F := by
  rcases u8_region s with h0 | h0 | h0 | h0 | h0 | h0 | h0 | h0 | h0 | h0 | h0
  · exact h0
  · rw [u8_r2 s h0.1 h0.2] at h; exact absurd h (by decide)
  · rw [u8_r3 s h0.1 h0.2] at h; split_ifs at h <;> omega
  · rw [u8_r4 s h0] at h; split_ifs at h <;> omega
  · rw [u8_r5 s h0.1 h0.2] at h; split_ifs at h <;> omega
  · rw [u8_r6 s h0] at h; split_ifs at h <;> omega
  · rw [u8_r7 s h0.1 h0.2] at h; split_ifs at h <;> omega
  · rw [u8_r8 s h0] at h; split_ifs at h <;> omega
  · rw [u8_r9 s h0.1 h0.2] at h; split_ifs at h <;> omega
  · rw [u8_r10 s h0] at h; split_ifs at h <;> omega
  · rw [u8_r11 s h0] at h; exact absurd h (by decide)

theorem utf8len_multi_lead (s : Bytes) (h : 1 < utf8len s) :
    0xC2 ≤ bget s 0 := by
  rcases u8_region s with h0 | h0 | h0 | h0 | h0 | h0 | h0 | h0 | h0 | h0 | h0
  · rw [u8_r1 s h0] at h; exact absurd h (by decide)
  · rw [u8_r2 s h0.1 h0.2] at h; exact absurd h (by decide)
  · omega
  · omega
  · omega
  · omega
  · omega
  · omega
  · omega
  · omega
  · rw [u8_r11 s h0] at h; exact absurd h (by decide)

theorem iscntrlB_iff (b : Nat) : iscntrlB b = true ↔ (b < 32 ∨ b = 127) := by
  unfold iscntrlB
  split_ifs with hh
  · simp [hh]
  · simp [hh]

theorem qtok_escByte (b next : Nat) (hb : b ≤ 127) :
    QTok (escByte b next) := by
  unfold escByte
  by_cases a1 : b = 34 ∨ b = 92
  · rw [if_pos a1]
    exact QTok.esc2 b (by rcases a1 with rfl | rfl <;> simp)
  rw [if_neg a1]
  by_cases a2 : iscntrlB b = true
  · rw [if_neg (not_not_intro a2)]
    by_cases a3 : b = 0
    · rw [if_pos a3]
      exact QTok.esc2 48 (by simp)
    rw [if_neg a3]
    by_cases a4 : b = 7
    · rw [if_pos a4]
      exact QTok.esc2 97 (by simp)
    rw [if_neg a4]
    by_cases a5 : b = 8
    · rw [if_pos a5]
      exact QTok.esc2 98 (by simp)
    rw [if_neg a5]
    by_cases a6 : b = 9
    · rw [if_pos a6]
      exact QTok.esc2 116 (by simp)
    rw [if_neg a6]
    by_cases a7 : b = 10
    · rw [if_pos a7]
      exact QTok.esc2 110 (by simp)
    rw [if_neg a7]
    by_cases a8 : b = 11
    · rw [if_pos a8]
      exact QTok.esc2 118 (by simp)
    rw [if_neg a8]
    by_cases a9 : b = 12
    · rw [if_pos a9]
      exact QTok.esc2 102 (by simp)
    rw [if_neg a9]
    by_cases a10 : b = 13
    · rw [if_pos a10]
      exact QTok.esc2 114 (by simp)
    rw [if_neg a10]
    by_cases a11 : isdigitB next = true
    · rw [if_pos a11]
      refine QTok.escDec (leftPad 48 3 (natDec b))
        (by unfold leftPad; simp [natDec_ne b]) ?_
      intro c hc
      unfold leftPad at hc
      rw [List.mem_append] at hc
      rcases hc with hc | hc
      · rw [List.eq_of_mem_replicate hc]
        omega
      · exact natDec_digits b (by omega) c hc
    · rw [if_neg a11]
      exact QTok.escDec (natDec b) (natDec_ne b) (natDec_digits b (by omega))
  · rw [if_pos a2]
    rw [iscntrlB_iff] at a2
    push_neg at a2
    refine QTok.plain b (by omega) (by omega) ?_ ?_
    · intro e
      exact a1 (Or.inl e)
    · intro e
      exact a1 (Or.inr e)

theorem qtoks_quoteLoopAux : ∀ (n : Nat) (s : Bytes), s.length ≤ n →
    QToks (quoteLoop s) := by
  intro n
  induction n with
  | zero =>
    intro s hs
    have he : s = [] := by
      cases s
      · rfl
      · simp at hs
    subst he
    exact QToks.nil
  | succ n ih =>
    intro s hsn
    by_cases hs : s = []
    · subst hs
      exact QToks.nil
    · have hpos := utf8len_natAbs_pos s
      have hlen := utf8len_le_length s hs
      have hl : 0 < s.length := List.length_pos.mpr hs
      rcases lt_trichotomy (utf8len s) 0 with hlt | heq | hgt
      · rw [quoteLoop_neg s hs hlt]
        exact QToks.cons QTok.rep (ih (s.drop (utf8len s).natAbs)
          (by simp only [List.length_drop]; omega))
      · rw [heq] at hpos
        exact absurd hpos (by decide)
      · by_cases h1 : utf8len s = 1
        · rw [quoteLoop_one s hs h1]
          refine QToks.cons (qtok_escByte (read0 s) (bget s 1) ?_)
            (ih (s.drop 1) (by simp only [List.length_drop]; omega))
          rw [read0_eq_bget0]
          exact utf8len_one_lead s h1
        · have h2 : 1 < utf8len s := by omega
          rw [quoteLoop_multi s h2]
          refine QToks.cons (QTok.multi (s.take (utf8len s).natAbs) ?_ ?_)
            (ih (s.drop (utf8len s).natAbs)
              (by simp only [List.length_drop]; omega))
          · rw [List.length_take]
            omega
          · have ht := utf8len_take s hgt
            rw [ht, List.length_take, Nat.min_eq_left hlen]
            omega

theorem qtoks_quoteLoop (s : Bytes) : QToks (quoteLoop s) :=
  qtoks_quoteLoopAux s.length s le_rfl

/-- Claim C10: for every input value, the `%q` output starts and ends with a
double quote, and the interior decomposes into tokens that are each either
the 3-byte replacement character, a verbatim well-formed multi-byte UTF-8
sequence, a named or decimal backslash escape, or a printable non-control
byte other than `"` and `\`. -/
theorem claim_C10_quote_output_shape (v : LValue) :
    ∃ inner : Bytes,
      pushQuotedString v = 34 :: (inner ++ [34]) ∧ QToks inner :=
  ⟨quoteLoop (tolstring v), rfl, qtoks_quoteLoop _⟩

theorem unqS_dig_cons (v k b : Nat) (r : Bytes) :
    unqS (.dig v k) (b :: r) =
      if isdigitB b ∧ k < 3 then unqS (.dig (v * 10 + (b - 48)) (k + 1)) r
      else if 255 < v then none
      else if b = 34 then (if r.isEmpty then some [v] else none)
      else if b = 92 then (unqS .esc r).map (v :: ·)
      else (unqS .norm r).map (fun l => v :: b :: l) := rfl

theorem unqS_esc_cons (c : Nat) (r : Bytes) :
    unqS .esc (c :: r) =
      (if isdigitB c then unqS (.dig (c - 48) 1) r
       else
         match escMap c with
         | some b => (unqS .norm r).map (b :: ·)
         | none => none) := rfl

theorem unqS_norm_92 (r : Bytes) : unqS .norm (92 :: r) = unqS .esc r := rfl

theorem unqS_norm_34 (r : Bytes) :
    unqS .norm (34 :: r) = (if r.isEmpty then some [] else none) := rfl

theorem unqS_norm_other (b : Nat) (h1 : b ≠ 34) (h2 : b ≠ 92) (r : Bytes) :
    unqS .norm (b :: r) = (unqS .norm r).map (b :: ·) := by
  rw [unqS.eq_def]
  split <;> simp_all

theorem nnd_tail : ∀ (b : Nat) (r : Bytes),
    noNulDigit (b :: r) = true → noNulDigit r = true
  | 0, [], _ => rfl
  | 0, c :: r2, h => by
    have h' : (!isdigitB c && noNulDigit (c :: r2)) = true := h
    simp at h'
    exact h'.2
  | _ + 1, _, h => h

theorem nnd_drop : ∀ (k : Nat) (s : Bytes),
    noNulDigit s = true → noNulDigit (s.drop k) = true := by
  intro k
  induction k with
  | zero => intro s h; exact h
  | succ k ih =>
    intro s h
    cases s with
    | nil => exact h
    | cons b r => exact ih r (nnd_tail b r h)

theorem nnd_head0 : ∀ (rest : Bytes), noNulDigit (0 :: rest) = true →
    isdigitB (rest.headD 0) = false
  | [], _ => rfl
  | c :: r2, h => by
    have h' : (!isdigitB c && noNulDigit (c :: r2)) = true := h
    simp at h'
    exact h'.1

theorem read0_append (l X : Bytes) (h : l ≠ []) :
    read0 (l ++ X) = read0 l := by
  cases l
  · exact absurd rfl h
  · rfl

theorem read0_take (s : Bytes) (k : Nat) (hk : 1 ≤ k) (hs : s ≠ []) :
    read0 (s.take k) = read0 s := by
  cases s
  · exact absurd rfl hs
  · cases k
    · omega
    · rfl

set_option maxHeartbeats 1000000 in
theorem escByte_ne (b nx : Nat) : escByte b nx ≠ [] := by
  unfold escByte
  split_ifs <;> simp

set_option maxHeartbeats 1000000 in
theorem escByte_head (b nx : Nat) :
    read0 (escByte b nx) = 92 ∨ read0 (escByte b nx) = b := by
  unfold escByte
  split_ifs <;> first | exact Or.inl rfl | exact Or.inr rfl

theorem quote_head_not_digit (l : Bytes) (h : isdigitB (l.headD 0) = false) :
    isdigitB (read0 (quoteLoop l ++ [34])) = false := by
  by_cases hl : l = []
  · subst hl
    decide
  · rcases lt_trichotomy (utf8len l) 0 with hlt | heq | hgt
    · rw [quoteLoop_neg l hl hlt, List.append_assoc,
        read0_append _ _ (by simp [replacementChar])]
      decide
    · have hp := utf8len_natAbs_pos l
      rw [heq] at hp
      exact absurd hp (by decide)
    · by_cases h1 : utf8len l = 1
      · rw [quoteLoop_one l hl h1, List.append_assoc,
          read0_append _ _ (escByte_ne _ _)]
        rcases escByte_head (read0 l) (bget l 1) with he | he
        · rw [he]
          decide
        · rw [he]
          exact h
      · have h2 : 1 < utf8len l := by omega
        have hnA : 1 ≤ (utf8len l).natAbs := utf8len_natAbs_pos l
        rw [quoteLoop_multi l h2, List.append_assoc,
          read0_append _ _
            (by rw [Ne, List.take_eq_nil_iff]; push_neg; exact ⟨by omega, hl⟩),
          read0_take l _ (by omega) hl]
        have hled := utf8len_multi_lead l h2
        rw [read0_eq_bget0]
        simp only [isdigitB]
        rw [if_neg (by omega)]

theorem mem_take_bget {c : Nat} {s : Bytes} {k : Nat} (h : c ∈ s.take k) :
    ∃ i, i < k ∧ i < s.length ∧ c = bget s i := by
  obtain ⟨i, hi, he⟩ := List.mem_iff_getElem.mp h
  rw [List.length_take] at hi
  refine ⟨i, by omega, by omega, ?_⟩
  rw [← he, List.getElem_take]
  unfold bget
  rw [List.getD_eq_getElem s 0 (by omega)]

theorem unqS_dig_flush (v k : Nat) (T : Bytes) (hv : ¬ 255 < v)
    (hstop : isdigitB (read0 T) = false ∨ 3 ≤ k) (hT : T ≠ []) :
    unqS (.dig v k) T = (unqS .norm T).map (v :: ·) := by
  obtain ⟨tb, T', rfl⟩ : ∃ tb T', T = tb :: T' := by
    cases T
    · exact absurd rfl hT
    · exact ⟨_, _, rfl⟩
  rw [unqS_dig_cons]
  have hcond : ¬ (isdigitB tb = true ∧ k < 3) := by
    rcases hstop with hs | hs
    · intro hc
      rw [show read0 (tb :: T') = tb from rfl] at hs
      rw [hc.1] at hs
      exact absurd hs (by decide)
    · intro hc
      omega
  rw [if_neg hcond, if_neg hv]
  by_cases h34 : tb = 34
  · subst h34
    rw [if_pos rfl, unqS_norm_34]
    by_cases he : T'.isEmpty
    · simp [he]
    · simp [he]
  · rw [if_neg h34]
    by_cases h92 : tb = 92
    · subst h92
      rw [if_pos rfl, unqS_norm_92]
    · rw [if_neg h92, unqS_norm_other tb h34 h92 T']
      simp only [Option.map_map]
      rfl

theorem unqS_norm_verbatim : ∀ (t : Bytes),
    (∀ c ∈ t, c ≠ 34 ∧ c ≠ 92) →
    ∀ X : Bytes, unqS .norm (t ++ X) = (unqS .norm X).map (t ++ ·) := by
  intro t
  induction t with
  | nil =>
    intro _ X
    simp
  | cons c u ih =>
    intro h X
    have hc := h c (by simp)
    rw [List.cons_append, unqS_norm_other c hc.1 hc.2,
      ih (fun x hx => h x (by simp [hx])) X]
    simp only [Option.map_map]
    rfl

theorem utf8len_multi_take_ge128 (s : Bytes) (h : 1 < utf8len s) :
    ∀ c ∈ s.take (utf8len s).natAbs, 128 ≤ c := by
  rcases u8_region s with h0 | h0 | h0 | h0 | h0 | h0 | h0 | h0 | h0 | h0 | h0
  · rw [u8_r1 s h0] at h
    exact absurd h (by decide)
  · rw [u8_r2 s h0.1 h0.2] at h
    exact absurd h (by decide)
  · rw [u8_r3 s h0.1 h0.2] at h ⊢
    split_ifs at h ⊢ with a
    · intro c hc
      obtain ⟨i, hik, hil, rfl⟩ := mem_take_bget hc
      have hi2 : i < 2 := by omega
      interval_cases i
      · omega
      · exact tail_ge128 a
    all_goals exact absurd h (by decide)
  · rw [u8_r4 s h0] at h ⊢
    split_ifs at h ⊢ with a
    · intro c hc
      obtain ⟨i, hik, hil, rfl⟩ := mem_take_bget hc
      have hi3 : i < 3 := by omega
      interval_cases i
      · omega
      · omega
      · exact tail_ge128 a.2.2
    all_goals exact absurd h (by decide)
  · rw [u8_r5 s h0.1 h0.2] at h ⊢
    split_ifs at h ⊢ with a
    · intro c hc
      obtain ⟨i, hik, hil, rfl⟩ := mem_take_bget hc
      have hi3 : i < 3 := by omega
      interval_cases i
      · omega
      · exact tail_ge128 a.1
      · exact tail_ge128 a.2
    all_goals exact absurd h (by decide)
  · rw [u8_r6 s h0] at h ⊢
    split_ifs at h ⊢ with a
    · intro c hc
      obtain ⟨i, hik, hil, rfl⟩ := mem_take_bget hc
      have hi3 : i < 3 := by omega
      interval_cases i
      · omega
      · omega
      · exact tail_ge128 a.2.2
    all_goals exact absurd h (by decide)
  · rw [u8_r7 s h0.1 h0.2] at h ⊢
    split_ifs at h ⊢ with a
    · intro c hc
      obtain ⟨i, hik, hil, rfl⟩ := mem_take_bget hc
      have hi3 : i < 3 := by omega
      interval_cases i
      · omega
      · exact tail_ge128 a.1
      · exact tail_ge128 a.2
    all_goals exact absurd h (by decide)
  · rw [u8_r8 s h0] at h ⊢
    split_ifs at h ⊢ with a
    · intro c hc
      obtain ⟨i, hik, hil, rfl⟩ := mem_take_bget hc
      have hi4 : i < 4 := by omega
      interval_cases i
      · omega
      · omega
      · exact tail_ge128 a.2.2.1
      · exact tail_ge128 a.2.2.2
    all_goals exact absurd h (by decide)
  · rw [u8_r9 s h0.1 h0.2] at h ⊢
    split_ifs at h ⊢ with a
    · intro c hc
      obtain ⟨i, hik, hil, rfl⟩ := mem_take_bget hc
      have hi4 : i < 4 := by omega
      interval_cases i
      · omega
      · exact tail_ge128 a.1
      · exact tail_ge128 a.2.1
      · exact tail_ge128 a.2.2
    all_goals exact absurd h (by decide)
  · rw [u8_r10 s h0] at h ⊢
    split_ifs at h ⊢ with a
    · intro c hc
      obtain ⟨i, hik, hil, rfl⟩ := mem_take_bget hc
      have hi4 : i < 4 := by omega
      interval_cases i
      · omega
      · omega
      · exact tail_ge128 a.2.2.1
      · exact tail_ge128 a.2.2.2
    all_goals exact absurd h (by decide)
  · rw [u8_r11 s h0] at h
    exact absurd h (by decide)

theorem isdigitB_true_of (x : Nat) (h1 : 48 ≤ x) (h2 : x ≤ 57) :
    isdigitB x = true := by
  unfold isdigitB
  rw [if_pos (by omega)]

theorem isdigitB_false_of_not (x : Nat) (h : ¬ isdigitB x = true) :
    isdigitB x = false := by
  cases hx : isdigitB x
  · rfl
  · exact absurd hx h

theorem unq_escByte_step (b : Nat) (rest : Bytes) (hble : b ≤ 127)
    (hnd : noNulDigit (b :: rest) = true) :
    unqS .norm (escByte b (rest.headD 0) ++ (quoteLoop rest ++ [34])) =
      (unqS .norm (quoteLoop rest ++ [34])).map (b :: ·) := by
  set T := quoteLoop rest ++ [34] with hT
  have hTne : T ≠ [] := by simp [hT]
  unfold escByte
  by_cases a1 : b = 34 ∨ b = 92
  · rcases a1 with rfl | rfl
    · rw [if_pos (Or.inl rfl)]
      rw [show ([92, 34] : Bytes) ++ T = 92 :: 34 :: T from rfl]
      rw [unqS_norm_92, unqS_esc_cons, if_neg (by decide)]
      rfl
    · rw [if_pos (Or.inr rfl)]
      rw [show ([92, 92] : Bytes) ++ T = 92 :: 92 :: T from rfl]
      rw [unqS_norm_92, unqS_esc_cons, if_neg (by decide)]
      rfl
  rw [if_neg a1]
  have h34 : b ≠ 34 := fun e => a1 (Or.inl e)
  have h92 : b ≠ 92 := fun e => a1 (Or.inr e)
  by_cases a2 : iscntrlB b = true
  · rw [if_neg (not_not_intro a2)]
    have hcn : b < 32 ∨ b = 127 := (iscntrlB_iff b).mp a2
    by_cases a3 : b = 0
    · subst a3
      rw [if_pos rfl]
      rw [show ([92, 48] : Bytes) ++ T = 92 :: 48 :: T from rfl]
      rw [unqS_norm_92, unqS_esc_cons, if_pos (by decide)]
      have hdT : isdigitB (read0 T) = false :=
        quote_head_not_digit rest (nnd_head0 rest hnd)
      rw [show (48 - 48 : Nat) = 0 from rfl]
      rw [unqS_dig_flush 0 1 T (by omega) (Or.inl hdT) hTne]
    rw [if_neg a3]
    by_cases a4 : b = 7
    · subst a4
      rw [if_pos rfl]
      rw [show ([92, 97] : Bytes) ++ T = 92 :: 97 :: T from rfl]
      rw [unqS_norm_92, unqS_esc_cons, if_neg (by decide)]
      rfl
    rw [if_neg a4]
    by_cases a5 : b = 8
    · subst a5
      rw [if_pos rfl]
      rw [show ([92, 98] : Bytes) ++ T = 92 :: 98 :: T from rfl]
      rw [unqS_norm_92, unqS_esc_cons, if_neg (by decide)]
      rfl
    rw [if_neg a5]
    by_cases a6 : b = 9
    · subst a6
      rw [if_pos rfl]
      rw [show ([92, 116] : Bytes) ++ T = 92 :: 116 :: T from rfl]
      rw [unqS_norm_92, unqS_esc_cons, if_neg (by decide)]
      rfl
    rw [if_neg a6]
    by_cases a7 : b = 10
    · subst a7
      rw [if_pos rfl]
      rw [show ([92, 110] : Bytes) ++ T = 92 :: 110 :: T from rfl]
      rw [unqS_norm_92, unqS_esc_cons, if_neg (by decide)]
      rfl
    rw [if_neg a7]
    by_cases a8 : b = 11
    · subst a8
      rw [if_pos rfl]
      rw [show ([92, 118] : Bytes) ++ T = 92 :: 118 :: T from rfl]
      rw [unqS_norm_92, unqS_esc_cons, if_neg (by decide)]
      rfl
    rw [if_neg a8]
    by_cases a9 : b = 12
    · subst a9
      rw [if_pos rfl]
      rw [show ([92, 102] : Bytes) ++ T = 92 :: 102 :: T from rfl]
      rw [unqS_norm_92, unqS_esc_cons, if_neg (by decide)]
      rfl
    rw [if_neg a9]
    by_cases a10 : b = 13
    · subst a10
      rw [if_pos rfl]
      rw [show ([92, 114] : Bytes) ++ T = 92 :: 114 :: T from rfl]
      rw [unqS_norm_92, unqS_esc_cons, if_neg (by decide)]
      rfl
    rw [if_neg a10]
    have hb1000 : b < 1000 := by omega
    by_cases a11 : isdigitB (rest.headD 0) = true
    · rw [if_pos a11]
      rw [natDec_small b hb1000]
      by_cases hb10 : b < 10
      · rw [if_pos hb10]
        rw [show leftPad 48 3 [b + 48] = [48, 48, b + 48] from rfl]
        rw [show (92 :: [48, 48, b + 48]) ++ T =
          92 :: 48 :: 48 :: (b + 48) :: T from rfl]
        rw [unqS_norm_92, unqS_esc_cons, if_pos (by decide)]
        rw [unqS_dig_cons, if_pos ⟨by decide, by omega⟩]
        rw [unqS_dig_cons,
          if_pos ⟨isdigitB_true_of (b + 48) (by omega) (by omega), by omega⟩]
        rw [show ((48 - 48) * 10 + (48 - 48)) * 10 + (b + 48 - 48) = b from
          by omega]
        rw [unqS_dig_flush b 3 T (by omega) (Or.inr (by omega)) hTne]
      rw [if_neg hb10]
      by_cases hb100 : b < 100
      · rw [if_pos hb100]
        rw [show leftPad 48 3 [b / 10 + 48, b % 10 + 48] =
          [48, b / 10 + 48, b % 10 + 48] from rfl]
        rw [show (92 :: [48, b / 10 + 48, b % 10 + 48]) ++ T =
          92 :: 48 :: (b / 10 + 48) :: (b % 10 + 48) :: T from rfl]
        rw [unqS_norm_92, unqS_esc_cons, if_pos (by decide)]
        rw [unqS_dig_cons,
          if_pos ⟨isdigitB_true_of (b / 10 + 48) (by omega) (by omega),
            by omega⟩]
        rw [unqS_dig_cons,
          if_pos ⟨isdigitB_true_of (b % 10 + 48) (by omega) (by omega),
            by omega⟩]
        rw [show ((48 - 48) * 10 + (b / 10 + 48 - 48)) * 10 +
          (b % 10 + 48 - 48) = b from by omega]
        rw [unqS_dig_flush b 3 T (by omega) (Or.inr (by omega)) hTne]
      · rw [if_neg hb100]
        rw [show leftPad 48 3 [b / 100 + 48, b / 10 % 10 + 48, b % 10 + 48] =
          [b / 100 + 48, b / 10 % 10 + 48, b % 10 + 48] from by
            unfold leftPad
            simp]
        rw [show (92 :: [b / 100 + 48, b / 10 % 10 + 48, b % 10 + 48]) ++ T =
          92 :: (b / 100 + 48) :: (b / 10 % 10 + 48) :: (b % 10 + 48) :: T
          from rfl]
        rw [unqS_norm_92, unqS_esc_cons,
          if_pos (isdigitB_true_of (b / 100 + 48) (by omega) (by omega))]
        rw [unqS_dig_cons,
          if_pos ⟨isdigitB_true_of (b / 10 % 10 + 48) (by omega) (by omega),
            by omega⟩]
        rw [unqS_dig_cons,
          if_pos ⟨isdigitB_true_of (b % 10 + 48) (by omega) (by omega),
            by omega⟩]
        rw [show ((b / 100 + 48 - 48) * 10 + (b / 10 % 10 + 48 - 48)) * 10 +
          (b % 10 + 48 - 48) = b from by omega]
        rw [unqS_dig_flush b 3 T (by omega) (Or.inr (by omega)) hTne]
    · rw [if_neg a11]
      have hdT : isdigitB (read0 T) = false :=
        quote_head_not_digit rest (isdigitB_false_of_not _ a11)
      rw [natDec_small b hb1000]
      by_cases hb10 : b < 10
      · rw [if_pos hb10]
        rw [show (92 :: [b + 48]) ++ T = 92 :: (b + 48) :: T from rfl]
        rw [unqS_norm_92, unqS_esc_cons,
          if_pos (isdigitB_true_of (b + 48) (by omega) (by omega))]
        rw [show b + 48 - 48 = b from by omega]
        rw [unqS_dig_flush b 1 T (by omega) (Or.inl hdT) hTne]
      rw [if_neg hb10]
      by_cases hb100 : b < 100
      · rw [if_pos hb100]
        rw [show (92 :: [b / 10 + 48, b % 10 + 48]) ++ T =
          92 :: (b / 10 + 48) :: (b % 10 + 48) :: T from rfl]
        rw [unqS_norm_92, unqS_esc_cons,
          if_pos (isdigitB_true_of (b / 10 + 48) (by omega) (by omega))]
        rw [unqS_dig_cons,
          if_pos ⟨isdigitB_true_of (b % 10 + 48) (by omega) (by omega),
            by omega⟩]
        rw [show (b / 10 + 48 - 48) * 10 + (b % 10 + 48 - 48) = b from
          by omega]
        rw [unqS_dig_flush b 2 T (by omega) (Or.inl hdT) hTne]
      · rw [if_neg hb100]
        rw [show (92 :: [b / 100 + 48, b / 10 % 10 + 48, b % 10 + 48]) ++ T =
          92 :: (b / 100 + 48) :: (b / 10 % 10 + 48) :: (b % 10 + 48) :: T
          from rfl]
        rw [unqS_norm_92, unqS_esc_cons,
          if_pos (isdigitB_true_of (b / 100 + 48) (by omega) (by omega))]
        rw [unqS_dig_cons,
          if_pos ⟨isdigitB_true_of (b / 10 % 10 + 48) (by omega) (by omega),
            by omega⟩]
        rw [unqS_dig_cons,
          if_pos ⟨isdigitB_true_of (b % 10 + 48) (by omega) (by omega),
            by omega⟩]
        rw [show ((b / 100 + 48 - 48) * 10 + (b / 10 % 10 + 48 - 48)) * 10 +
          (b % 10 + 48 - 48) = b from by omega]
        rw [unqS_dig_flush b 3 T (by omega) (Or.inr (by omega)) hTne]
  · rw [if_pos a2]
    rw [show ([b] : Bytes) ++ T = b :: T from rfl]
    exact unqS_norm_other b h34 h92 T

theorem roundtrip_aux : ∀ (n : Nat) (s : Bytes), s.length ≤ n →
    utf8wf s = true → noNulDigit s = true →
    unqS .norm (quoteLoop s ++ [34]) = some s := by
  intro n
  induction n with
  | zero =>
    intro s hln _ _
    have he : s = [] := by
      cases s
      · rfl
      · simp at hln
    subst he
    rfl
  | succ n ih =>
    intro s hln hwf hnd
    by_cases hs : s = []
    · subst hs
      rfl
    · obtain ⟨hpos, hwf2⟩ := utf8wf_step s hs hwf
      have hnA1 := utf8len_natAbs_pos s
      have hnAle := utf8len_le_length s hs
      have hl1 : 0 < s.length := List.length_pos.mpr hs
      by_cases h1 : utf8len s = 1
      · obtain ⟨b, rest, rfl⟩ : ∃ b rest, s = b :: rest := by
          cases s
          · exact absurd rfl hs
          · exact ⟨_, _, rfl⟩
        have hble : b ≤ 127 := utf8len_one_lead (b :: rest) h1
        have hdrop1 :
            (b :: rest).drop (utf8len (b :: rest)).natAbs = rest := by
          rw [h1]
          rfl
        have hQ : unqS .norm (quoteLoop rest ++ [34]) = some rest := by
          refine ih rest ?_ ?_ (nnd_tail b rest hnd)
          · simp at hln
            omega
          · rw [hdrop1] at hwf2
            exact hwf2
        rw [quoteLoop_one (b :: rest) hs h1]
        rw [show read0 (b :: rest) = b from rfl, bget_cons1,
          show (b :: rest).drop 1 = rest from rfl]
        rw [List.append_assoc]
        rw [unq_escByte_step b rest hble hnd, hQ]
        rfl
      · have h2 : 1 < utf8len s := by omega
        rw [quoteLoop_multi s h2, List.append_assoc]
        have hvb : ∀ c ∈ s.take (utf8len s).natAbs, c ≠ 34 ∧ c ≠ 92 := by
          intro c hc
          have := utf8len_multi_take_ge128 s h2 c hc
          constructor
          · omega
          · omega
        rw [unqS_norm_verbatim _ hvb _]
        have hQ : unqS .norm
            (quoteLoop (s.drop (utf8len s).natAbs) ++ [34]) =
            some (s.drop (utf8len s).natAbs) := by
          refine ih _ ?_ hwf2 (nnd_drop _ s hnd)
          simp only [List.length_drop]
          omega
        rw [hQ]
        simp [List.take_append_drop]

/-- Claim C2 is false as stated: the input `"\x005"` (NUL byte followed by
the ASCII digit `5`) is well-formed UTF-8, but `%q` encodes the NUL as the
named escape `\0` unconditionally, producing interior `\05`, which the host
literal parser reads as the single byte 5. -/
theorem claim_C2_counterexample :
    utf8wf [0, 53] = true ∧
    luaUnquote (pushQuotedString (.vstr [0, 53])) = some [5] ∧
    some ([5] : Bytes) ≠ some ([0, 53] : Bytes) := by
  decide

/-- Claim C2 (amended): for every well-formed UTF-8 input in which no NUL
byte is immediately followed by an ASCII digit, parsing the `%q` output with
the host's string-literal escape rules reproduces the original byte
sequence. -/
theorem claim_C2_quote_roundtrip_amended (s : Bytes)
    (hwf : utf8wf s = true) (hnd : noNulDigit s = true) :
    luaUnquote (pushQuotedString (.vstr s)) = some s :=
  roundtrip_aux s.length s le_rfl hwf hnd

theorem claim_C2_witness :
    utf8wf [97, 34, 98, 10, 99, 226, 130, 172, 0] = true ∧
    noNulDigit [97, 34, 98, 10, 99, 226, 130, 172, 0] = true ∧
    luaUnquote (pushQuotedString (.vstr [97, 34, 98, 10, 99, 226, 130, 172,
      0])) = some [97, 34, 98, 10, 99, 226, 130, 172, 0] :=
  ⟨by decide, by decide,
    claim_C2_quote_roundtrip_amended _ (by decide) (by decide)⟩
